import Mathlib

/-!
Verification development for the token-checkout bot (repickRU82/bot-TG).

The transactional core lives in `src/db.py` (class `Database`, backed by
SQLite).  We give a shallow embedding: the database state is a record of
lists mirroring the five relations, each SQL statement becomes a pure
list transformation, and every transactional method becomes a function
`DBState → DBState × result` whose error branch returns the input state
(mirroring the explicit `ROLLBACK` on every exception path).

Status strings: the code only ever writes `available`/`reserved`/`issued`
for tokens and `REQUESTED`/`APPROVED`/`REJECTED`/`ISSUED`/`RETURNED` for
requests (constants in `config.py`), so we embed them as enumerations.
Timestamps (`CURRENT_TIMESTAMP`, `DATETIME` arithmetic) are embedded as a
`Nat` clock passed to each operation.
-/

namespace BotTG

/-- Token status values, from `config.py` (`TOKEN_AVAILABLE`,
`TOKEN_RESERVED`, `TOKEN_ISSUED`). -/
inductive TokenStatus where
  | available
  | reserved
  | issued
deriving DecidableEq, Repr

/-- Request status values, from `config.py` (`STATUS_REQUESTED`,
`STATUS_APPROVED`, `STATUS_REJECTED`, `STATUS_ISSUED`, `STATUS_RETURNED`). -/
inductive ReqStatus where
  | REQUESTED
  | APPROVED
  | REJECTED
  | ISSUED
  | RETURNED
deriving DecidableEq, Repr

/-- The audit `action` written for a request status (the `config.py`
string constants, also used literally in `create_request_multi`). -/
def statusName : ReqStatus → String
  | .REQUESTED => "REQUESTED"
  | .APPROVED => "APPROVED"
  | .REJECTED => "REJECTED"
  | .ISSUED => "ISSUED"
  | .RETURNED => "RETURNED"

/-- A row of the `tokens` table. -/
structure Token where
  token_id : String
  description : String
  status : TokenStatus
deriving DecidableEq, Repr

/-- A row of the `requests` table (dataclass `RequestRow` in `db.py`). -/
structure Request where
  id : Nat
  tg_id : Int
  username : String
  company : String
  token_id : String
  purpose : String
  comment : Option String
  status : ReqStatus
  requested_at : Nat
  remind_sent_at : Option Nat
  approved_by : Option Int
  approved_at : Option Nat
  issued_by : Option Int
  issued_at : Option Nat
  returned_by : Option Int
  returned_at : Option Nat
deriving DecidableEq, Repr

/-- A row of the `request_items` table. -/
structure Item where
  request_id : Nat
  company : String
  token_id : String
deriving DecidableEq, Repr

/-- A row of the `audit_log` table.  `request_id` is nullable in the
schema; `payload` is an opaque blob the core never reads, so it is
omitted. -/
structure AuditEntry where
  request_id : Option Nat
  actor_tg_id : Int
  action : String
deriving DecidableEq, Repr

/-- A row of the waitlist relation (spec §3 `WaitlistEntry`; the table
itself is created by `Database` methods that `handlers.py` calls but that
are absent from `src/db.py`). -/
structure WaitEntry where
  tg_id : Int
  token_id : String
  company : String
deriving DecidableEq, Repr

/-- The database state: the relations the core reads and writes, plus
the AUTOINCREMENT counter for `requests.id` (SQLite `lastrowid`). -/
structure DBState where
  tokens : List Token
  requests : List Request
  request_items : List Item
  audit_log : List AuditEntry
  waitlist : List WaitEntry
  nextRequestId : Nat
deriving DecidableEq, Repr

/-- Typed counterparts of the `RuntimeError` strings raised by `db.py`. -/
inductive DbErr where
  | tokenNotFound (tid : String)
  | tokenNotAvailable (tid : String)
  | tokenReserveFailed (tid : String)
  | invalidStatus
  | raceLost
  | tokenStatusMismatch (tid : String)
deriving DecidableEq, Repr

/-- Result of a transactional method that returns `Optional[RequestRow]`:
`none` models the Python `return None` (request id absent), `err` models a
raised `RuntimeError` (transaction rolled back), `ok` a committed result. -/
inductive TxResult (α : Type) where
  | none
  | err (e : DbErr)
  | ok (a : α)
deriving DecidableEq, Repr

/-- Status of the token with the given id, if present
(`SELECT status FROM tokens WHERE token_id=?`; `token_id` is UNIQUE). -/
def tokenStatusOf (ts : List Token) (tid : String) : Option TokenStatus :=
  (ts.find? (fun t => decide (t.token_id = tid))).map (·.status)

/-- The conditional update
`UPDATE tokens SET status=next WHERE token_id=tid AND status=expected`
used inline by every transactional method, together with its rowcount
(SQLite counts the rows matched by the WHERE clause). -/
def sqlUpdateTokenIf (ts : List Token) (next : TokenStatus) (tid : String)
    (expected : TokenStatus) : List Token × Nat :=
  (ts.map (fun t => if t.token_id = tid ∧ t.status = expected then { t with status := next } else t),
   ts.countP (fun t => decide (t.token_id = tid ∧ t.status = expected)))

/-- The standalone method `Database.set_token_status` (db.py 271-279):
`UPDATE tokens SET status=? WHERE token_id=?;` — unconditional on the
prior status — committed at once, returning `rowcount > 0`. -/
def set_token_status (ts : List Token) (tid : String) (st : TokenStatus) :
    List Token × Bool :=
  (ts.map (fun t => if t.token_id = tid then { t with status := st } else t),
   decide (0 < ts.countP (fun t => decide (t.token_id = tid))))

/-- One step of the dedup loop of `create_request_multi`:
`uniq[token_id] = company` on a Python dict embedded as an association
list keyed by token id (insertion-ordered, last assignment wins). -/
def updEntry (acc : List (String × String)) (tid c : String) :
    List (String × String) :=
  if acc.any (fun q => decide (q.1 = tid)) then
    acc.map (fun q => if q.1 = tid then (q.1, c) else q)
  else acc ++ [(tid, c)]

/-- The dedup loop `for company, token_id in items: uniq[token_id] = company`. -/
def uniqFold : List (String × String) → List (String × String) →
    List (String × String)
  | [], acc => acc
  | (c, t) :: rest, acc => uniqFold rest (updEntry acc t c)

/-- Lines 310-313 of db.py: deduplicate `items` (pairs
`(company, token_id)`) by token id, later company wins, then rebuild
`items_u = [(c, t) for t, c in uniq.items()]`. -/
def dedupItems (items : List (String × String)) : List (String × String) :=
  (uniqFold items []).map (fun q => (q.2, q.1))

/-- The pre-check loop of `create_request_multi`: every token must exist
and be `available`, else raise `TOKEN_NOT_FOUND` / `TOKEN_NOT_AVAILABLE`. -/
def checkAvailable (ts : List Token) : List (String × String) → Except DbErr Unit
  | [] => .ok ()
  | (_, tid) :: rest =>
    match ts.find? (fun t => decide (t.token_id = tid)) with
    | Option.none => .error (.tokenNotFound tid)
    | Option.some t =>
      if t.status = .available then checkAvailable ts rest
      else .error (.tokenNotAvailable tid)

/-- The reservation loop of `create_request_multi`: for each item,
`UPDATE tokens SET status=reserved WHERE token_id=? AND status=available`,
raising `TOKEN_RESERVE_FAILED` unless exactly one row changed. -/
def reserveTokens (ts : List Token) : List (String × String) → Except DbErr (List Token)
  | [] => .ok ts
  | (_, tid) :: rest =>
    let r := sqlUpdateTokenIf ts .reserved tid .available
    if r.2 = 1 then reserveTokens r.1 rest
    else .error (.tokenReserveFailed tid)

/-- The request row inserted by `create_request_multi` (company and
token_id columns hold the literal "MULTI"; status `REQUESTED`;
`requested_at` defaults to the current timestamp). -/
def newRequestRow (request_id : Nat) (now : Nat) (tg_id : Int) (username : String)
    (purpose : String) (comment : Option String) : Request :=
  { id := request_id, tg_id := tg_id, username := username, company := "MULTI",
    token_id := "MULTI", purpose := purpose, comment := comment,
    status := .REQUESTED, requested_at := now, remind_sent_at := Option.none,
    approved_by := Option.none, approved_at := Option.none,
    issued_by := Option.none, issued_at := Option.none,
    returned_by := Option.none, returned_at := Option.none }

/-- `Database.create_request_multi` (db.py 301-371): one transaction that
deduplicates the items, checks every token is `available`, inserts the
request row and its `request_items`, flips every token
`available -> reserved` via the conditional update, appends one
`REQUESTED` audit entry and commits, returning the new request id.  Any
error rolls the whole transaction back: the returned state is the input
state. -/
def create_request_multi (s : DBState) (now : Nat) (tg_id : Int) (username : String)
    (items : List (String × String)) (purpose : String) (comment : Option String) :
    DBState × Except DbErr Nat :=
  let items_u := dedupItems items
  match checkAvailable s.tokens items_u with
  | .error e => (s, .error e)
  | .ok _ =>
    let request_id := s.nextRequestId
    let req := newRequestRow request_id now tg_id username purpose comment
    let newItems := items_u.map (fun p => Item.mk request_id p.1 p.2)
    match reserveTokens s.tokens items_u with
    | .error e => (s, .error e)
    | .ok ts2 =>
      ({ s with
          tokens := ts2,
          requests := s.requests ++ [req],
          request_items := s.request_items ++ newItems,
          audit_log := s.audit_log ++
            [{ request_id := Option.some request_id, actor_tg_id := tg_id,
               action := "REQUESTED" }],
          nextRequestId := request_id + 1 },
       .ok request_id)

/-- `Database._get_request_items_tx`: the items of a request,
`SELECT ... FROM request_items WHERE request_id=? ORDER BY company`. -/
def request_items_tx (s : DBState) (request_id : Nat) : List Item :=
  (s.request_items.filter (fun it => decide (it.request_id = request_id))).mergeSort
    (fun a b => decide (a.company ≤ b.company))

/-- The per-item token loop shared by `director_decide`, `officer_issue`
and `officer_return`: for each item,
`UPDATE tokens SET status=next WHERE token_id=? AND status=expected`,
raising `TOKEN_STATUS_MISMATCH` unless exactly one row changed. -/
def updateItemTokens (next expected : TokenStatus) :
    List Item → List Token → Except DbErr (List Token)
  | [], ts => .ok ts
  | it :: rest, ts =>
    let r := sqlUpdateTokenIf ts next it.token_id expected
    if r.2 = 1 then updateItemTokens next expected rest r.1
    else .error (.tokenStatusMismatch it.token_id)

/-- The conditional update on `requests`
(`UPDATE requests SET ... WHERE id=? AND status=expected`) with its
rowcount. -/
def sqlUpdateRequestIf (rs : List Request) (f : Request → Request)
    (request_id : Nat) (expected : ReqStatus) : List Request × Nat :=
  (rs.map (fun r => if r.id = request_id ∧ r.status = expected then f r else r),
   rs.countP (fun r => decide (r.id = request_id ∧ r.status = expected)))

/-- `Database.get_request` / `_get_request_tx`:
`SELECT * FROM requests WHERE id=?` (id is the primary key). -/
def get_request (s : DBState) (request_id : Nat) : Option Request :=
  s.requests.find? (fun r => decide (r.id = request_id))

/-- The audit entries of one request in insertion (chronological) order:
`audit_log` rows with `request_id=?`. -/
def auditFor (s : DBState) (request_id : Nat) : List AuditEntry :=
  s.audit_log.filter (fun a => decide (a.request_id = Option.some request_id))

/-- `Database.get_audit_logs` for a given request:
`SELECT * FROM audit_log WHERE request_id=? ORDER BY ts DESC`.  Rows are
inserted with monotone timestamps, so most-recent-first is the reverse of
insertion order. -/
def get_audit_logs (s : DBState) (request_id : Nat) : List AuditEntry :=
  (auditFor s request_id).reverse

/-- `Database.director_decide` (db.py 478-528): one transaction that
loads the request (`None` if absent), requires status `REQUESTED`
(else `INVALID_STATUS`), conditionally flips it to `APPROVED`/`REJECTED`
guarded by `status=REQUESTED` (rowcount 1 else `RACE_LOST`), moves each
item token `reserved -> reserved` (approve) or `reserved -> available`
(reject) via the conditional update (else `TOKEN_STATUS_MISMATCH`),
appends one audit entry with the new status as action, commits and
returns the re-read row.  Any error rolls the transaction back. -/
def director_decide (s : DBState) (now : Nat) (request_id : Nat)
    (director_tg_id : Int) (approve : Bool) : DBState × TxResult Request :=
  let new_status := if approve then ReqStatus.APPROVED else ReqStatus.REJECTED
  match s.requests.find? (fun r => decide (r.id = request_id)) with
  | Option.none => (s, .none)
  | Option.some row =>
    if row.status ≠ .REQUESTED then (s, .err .invalidStatus)
    else
      let u := sqlUpdateRequestIf s.requests
        (fun r => { r with
          status := new_status,
          approved_by := Option.some director_tg_id,
          approved_at := Option.some now })
        request_id .REQUESTED
      if u.2 ≠ 1 then (s, .err .raceLost)
      else
        let items := request_items_tx s request_id
        let want := if approve then TokenStatus.reserved else TokenStatus.available
        match updateItemTokens want .reserved items s.tokens with
        | .error e => (s, .err e)
        | .ok ts2 =>
          let s2 := { s with
            requests := u.1,
            tokens := ts2,
            audit_log := s.audit_log ++
              [{ request_id := Option.some request_id,
                 actor_tg_id := director_tg_id,
                 action := statusName new_status }] }
          (s2, match s2.requests.find? (fun r => decide (r.id = request_id)) with
               | Option.some r => .ok r
               | Option.none => .none)

/-- `Database.officer_issue` (db.py 530-575): requires status `APPROVED`,
conditional transition to `ISSUED`, each item token
`reserved -> issued`, audit `ISSUED`. -/
def officer_issue (s : DBState) (now : Nat) (request_id : Nat)
    (officer_tg_id : Int) : DBState × TxResult Request :=
  match s.requests.find? (fun r => decide (r.id = request_id)) with
  | Option.none => (s, .none)
  | Option.some row =>
    if row.status ≠ .APPROVED then (s, .err .invalidStatus)
    else
      let u := sqlUpdateRequestIf s.requests
        (fun r => { r with
          status := .ISSUED,
          issued_by := Option.some officer_tg_id,
          issued_at := Option.some now })
        request_id .APPROVED
      if u.2 ≠ 1 then (s, .err .raceLost)
      else
        let items := request_items_tx s request_id
        match updateItemTokens .issued .reserved items s.tokens with
        | .error e => (s, .err e)
        | .ok ts2 =>
          let s2 := { s with
            requests := u.1,
            tokens := ts2,
            audit_log := s.audit_log ++
              [{ request_id := Option.some request_id,
                 actor_tg_id := officer_tg_id,
                 action := "ISSUED" }] }
          (s2, match s2.requests.find? (fun r => decide (r.id = request_id)) with
               | Option.some r => .ok r
               | Option.none => .none)

/-- `Database.officer_return` (db.py 577-622): requires status `ISSUED`,
conditional transition to `RETURNED`, each item token
`issued -> available`, audit `RETURNED`. -/
def officer_return (s : DBState) (now : Nat) (request_id : Nat)
    (officer_tg_id : Int) : DBState × TxResult Request :=
  match s.requests.find? (fun r => decide (r.id = request_id)) with
  | Option.none => (s, .none)
  | Option.some row =>
    if row.status ≠ .ISSUED then (s, .err .invalidStatus)
    else
      let u := sqlUpdateRequestIf s.requests
        (fun r => { r with
          status := .RETURNED,
          returned_by := Option.some officer_tg_id,
          returned_at := Option.some now })
        request_id .ISSUED
      if u.2 ≠ 1 then (s, .err .raceLost)
      else
        let items := request_items_tx s request_id
        match updateItemTokens .available .issued items s.tokens with
        | .error e => (s, .err e)
        | .ok ts2 =>
          let s2 := { s with
            requests := u.1,
            tokens := ts2,
            audit_log := s.audit_log ++
              [{ request_id := Option.some request_id,
                 actor_tg_id := officer_tg_id,
                 action := "RETURNED" }] }
          (s2, match s2.requests.find? (fun r => decide (r.id = request_id)) with
               | Option.some r => .ok r
               | Option.none => .none)

/-- The selection predicate of `Database.cleanup_old_data`:
`status IN ('RETURNED','REJECTED') AND requested_at <= DATETIME('now', '-days days')`. -/
def isOldTerminal (now days : Nat) (r : Request) : Bool :=
  decide ((r.status = .RETURNED ∨ r.status = .REJECTED) ∧ r.requested_at + days ≤ now)

/-- `Database.cleanup_old_data` (db.py 683-702): select the ids of
terminal (`RETURNED`/`REJECTED`) requests whose `requested_at` is at
least `days` old; if none, return 0; otherwise delete their
`request_items`, their `audit_log` rows (`request_id IN (...)` — never a
NULL `request_id`), then the requests themselves, and return how many
request ids were selected. -/
def cleanup_old_data (s : DBState) (now : Nat) (days : Nat) : DBState × Nat :=
  let old_ids := (s.requests.filter (isOldTerminal now days)).map (·.id)
  if old_ids.isEmpty then (s, 0)
  else
    ({ s with
        request_items := s.request_items.filter (fun it => decide (it.request_id ∉ old_ids)),
        audit_log := s.audit_log.filter (fun a =>
          match a.request_id with
          | Option.none => true
          | Option.some rid => decide (rid ∉ old_ids)),
        requests := s.requests.filter (fun r => decide (r.id ∉ old_ids)) },
     old_ids.length)

/-- Modelled from the spec: `Database.join_waitlist` is called from
`handlers.py` (line 578) but its definition is absent from `src/db.py`.
Spec §4.3: `join(requesterId, tokenId, company) -> joinedNow: bool` —
idempotent insert; returns false if the requester was already waiting on
that token (entries unique per `(requesterId, tokenId)`). -/
def join_waitlist (s : DBState) (tg_id : Int) (tid : String) (company : String) :
    DBState × Bool :=
  if s.waitlist.any (fun w => decide (w.tg_id = tg_id ∧ w.token_id = tid)) then (s, false)
  else ({ s with waitlist := s.waitlist ++ [{ tg_id := tg_id, token_id := tid, company := company }] }, true)

/-- Modelled from the spec: `Database.pop_waiters_for_available_tokens`
is called from `handlers.notify_waiters_for_tokens` (line 183) but its
definition is absent from `src/db.py`.  Spec §4.3 `popAvailable`: for
each given token currently `Available`, atomically removes and returns
all waiting entries for that token. -/
def pop_waiters_for_available_tokens (s : DBState) (tids : List String) :
    DBState × List WaitEntry :=
  let q := fun (w : WaitEntry) =>
    decide (w.token_id ∈ tids ∧ tokenStatusOf s.tokens w.token_id = Option.some .available)
  ({ s with waitlist := s.waitlist.filter (fun w => !q w) }, s.waitlist.filter q)

/-- Modelled from the spec: `Database.delete_request_by_admin` is called
from `handlers.cmd_admindel` (line 922) but its definition is absent from
`src/db.py`.  Spec §4.2 `AdminDelete`: valid from any status; returns
false when the request is absent; otherwise unconditionally releases
every item's token to `Available` regardless of its current status,
hard-deletes the request, its items and its audit entries, and records
the deletion as an audit entry keyed by the actor (not by the deleted
request id, whose trail is removed). -/
def delete_request_by_admin (s : DBState) (request_id : Nat) (actor_tg_id : Int) :
    DBState × Bool :=
  match s.requests.find? (fun r => decide (r.id = request_id)) with
  | Option.none => (s, false)
  | Option.some _ =>
    let itemTids := (s.request_items.filter (fun it => decide (it.request_id = request_id))).map (·.token_id)
    ({ s with
        tokens := s.tokens.map (fun t =>
          if t.token_id ∈ itemTids then { t with status := .available } else t),
        requests := s.requests.filter (fun r => decide (r.id ≠ request_id)),
        request_items := s.request_items.filter (fun it => decide (it.request_id ≠ request_id)),
        audit_log := (s.audit_log.filter (fun a => decide (a.request_id ≠ Option.some request_id))) ++
          [{ request_id := Option.none, actor_tg_id := actor_tg_id, action := "ADMIN_DELETE" }] },
     true)

/-- Structural integrity guaranteed by the SQLite schema and by how the
operations write: UNIQUE token ids, primary-key request ids,
AUTOINCREMENT freshness of the next request id, the
`request_items -> requests` foreign key, the
`UNIQUE(request_id, token_id)` constraint on `request_items`, and the
fact that audit rows are only ever written for already-allocated request
ids. -/
def WF (s : DBState) : Prop :=
  (s.tokens.map (·.token_id)).Nodup ∧
  (s.requests.map (·.id)).Nodup ∧
  (∀ r ∈ s.requests, r.id < s.nextRequestId) ∧
  (∀ it ∈ s.request_items, ∃ r ∈ s.requests, it.request_id = r.id) ∧
  (s.request_items.map (fun it => (it.request_id, it.token_id))).Nodup ∧
  (∀ a ∈ s.audit_log, ∀ rid : Nat, a.request_id = Option.some rid → rid < s.nextRequestId)

instance (s : DBState) : Decidable (WF s) := by
  unfold WF; infer_instance

/-- A request status from which further lifecycle transitions are possible. -/
def NonTerminal (st : ReqStatus) : Prop :=
  st = .REQUESTED ∨ st = .APPROVED ∨ st = .ISSUED

instance (st : ReqStatus) : Decidable (NonTerminal st) := by
  unfold NonTerminal; infer_instance

/-- Request number `rid` holds token `tid` through one of the given items. -/
def refsId (itemsL : List Item) (rid : Nat) (tid : String) : Prop :=
  ∃ it ∈ itemsL, it.request_id = rid ∧ it.token_id = tid

instance (itemsL : List Item) (rid : Nat) (tid : String) :
    Decidable (refsId itemsL rid tid) := by
  unfold refsId; infer_instance

/-- The central safety invariant: for every token, at most one
non-terminal request references it through a request item, and such a
token's status is `reserved` or `issued` — never `available`. -/
def Inv (s : DBState) : Prop :=
  ∀ tid : String,
    (∀ r1 ∈ s.requests, ∀ r2 ∈ s.requests,
      NonTerminal r1.status → NonTerminal r2.status →
      refsId s.request_items r1.id tid → refsId s.request_items r2.id tid →
      r1.id = r2.id) ∧
    (∀ r ∈ s.requests, NonTerminal r.status → refsId s.request_items r.id tid →
      tokenStatusOf s.tokens tid = Option.some .reserved ∨
      tokenStatusOf s.tokens tid = Option.some .issued)

/-- The company paired with the last occurrence of `tid` in the raw
`(company, token_id)` input list. -/
def lastCompany (items : List (String × String)) (tid : String) : Option String :=
  (items.reverse.find? (fun p => decide (p.2 = tid))).map (·.1)

/-- The shared transaction shape of the three lifecycle methods,
abstracted over the guarding request status, the row update, the token
transition and the audit action.  Each method below is definitionally an
instance of this shape. -/
def lifecycleStep (s : DBState) (expected : ReqStatus) (g : Request → Request)
    (want expTok : TokenStatus) (action : String) (actor : Int) (request_id : Nat) :
    DBState × TxResult Request :=
  match s.requests.find? (fun r => decide (r.id = request_id)) with
  | Option.none => (s, .none)
  | Option.some row =>
    if row.status ≠ expected then (s, .err .invalidStatus)
    else if (sqlUpdateRequestIf s.requests g request_id expected).2 ≠ 1 then
      (s, .err .raceLost)
    else
      match updateItemTokens want expTok (request_items_tx s request_id) s.tokens with
      | .error e => (s, .err e)
      | .ok ts2 =>
        ({ s with
            requests := (sqlUpdateRequestIf s.requests g request_id expected).1,
            tokens := ts2,
            audit_log := s.audit_log ++
              [{ request_id := Option.some request_id, actor_tg_id := actor,
                 action := action }] },
         match (sqlUpdateRequestIf s.requests g request_id expected).1.find?
             (fun r => decide (r.id = request_id)) with
         | Option.some r => .ok r
         | Option.none => .none)

/-- The state committed by a successful `create_request_multi`. -/
def createCommitted (s : DBState) (now : Nat) (tg_id : Int) (username : String)
    (items : List (String × String)) (purpose : String) (comment : Option String)
    (ts2 : List Token) : DBState :=
  { s with
      tokens := ts2,
      requests := s.requests ++ [newRequestRow s.nextRequestId now tg_id username purpose comment],
      request_items := s.request_items ++
        (dedupItems items).map (fun p => Item.mk s.nextRequestId p.1 p.2),
      audit_log := s.audit_log ++
        [{ request_id := Option.some s.nextRequestId, actor_tg_id := tg_id,
           action := "REQUESTED" }],
      nextRequestId := s.nextRequestId + 1 }

/-- The row update performed by `director_decide`. -/
def decideUpd (d : Int) (now : Nat) (ap : Bool) : Request → Request :=
  fun r => { r with
    status := if ap then ReqStatus.APPROVED else ReqStatus.REJECTED,
    approved_by := Option.some d, approved_at := Option.some now }

/-- The row update performed by `officer_issue`. -/
def issueUpd (o : Int) (now : Nat) : Request → Request :=
  fun r => { r with
    status := ReqStatus.ISSUED, issued_by := Option.some o, issued_at := Option.some now }

/-- The row update performed by `officer_return`. -/
def returnUpd (o : Int) (now : Nat) : Request → Request :=
  fun r => { r with
    status := ReqStatus.RETURNED, returned_by := Option.some o,
    returned_at := Option.some now }

/-! ### Concrete fixtures used by the witness theorems -/

/-- A store with two available tokens and nothing else. -/
def wstateAvail : DBState :=
  { tokens := [{ token_id := "T1", description := "d", status := .available },
               { token_id := "T2", description := "d", status := .available }],
    requests := [], request_items := [], audit_log := [], waitlist := [],
    nextRequestId := 1 }

/-- A freshly created single-token request row. -/
def wreq : Request :=
  { id := 1, tg_id := 7, username := "u", company := "MULTI", token_id := "MULTI",
    purpose := "p", comment := Option.none, status := .REQUESTED, requested_at := 5,
    remind_sent_at := Option.none, approved_by := Option.none,
    approved_at := Option.none, issued_by := Option.none, issued_at := Option.none,
    returned_by := Option.none, returned_at := Option.none }

/-- A store with one pending single-token request holding reserved `T1`,
and one waitlist entry for `T1`. -/
def wstateReq : DBState :=
  { tokens := [{ token_id := "T1", description := "d", status := .reserved }],
    requests := [wreq],
    request_items := [{ request_id := 1, company := "A", token_id := "T1" }],
    audit_log := [{ request_id := Option.some 1, actor_tg_id := 7,
                    action := "REQUESTED" }],
    waitlist := [{ tg_id := 21, token_id := "T1", company := "A" }],
    nextRequestId := 2 }

/-- A store with one old `RETURNED` request. -/
def wstateRet : DBState :=
  { tokens := [{ token_id := "T1", description := "d", status := .available }],
    requests := [{ wreq with status := .RETURNED }],
    request_items := [{ request_id := 1, company := "A", token_id := "T1" }],
    audit_log := [{ request_id := Option.some 1, actor_tg_id := 7,
                    action := "REQUESTED" }],
    waitlist := [], nextRequestId := 2 }

/-- A store with one `ISSUED` request holding issued token `T1`. -/
def wstateIss : DBState :=
  { tokens := [{ token_id := "T1", description := "d", status := .issued }],
    requests := [{ wreq with status := .ISSUED }],
    request_items := [{ request_id := 1, company := "A", token_id := "T1" }],
    audit_log := [{ request_id := Option.some 1, actor_tg_id := 7,
                    action := "REQUESTED" }],
    waitlist := [], nextRequestId := 2 }

/-! ### Lemmas about the token-table primitives -/

theorem statusOf_sqlUpdate_self (ts : List Token) (next : TokenStatus) (tid : String)
    (expected : TokenStatus) :
    tokenStatusOf (sqlUpdateTokenIf ts next tid expected).1 tid =
      (tokenStatusOf ts tid).map (fun st => if st = expected then next else st) := by
  induction ts with
  | nil => rfl
  | cons t rest ih =>
    by_cases h : t.token_id = tid
    · simp only [sqlUpdateTokenIf, tokenStatusOf, List.map_cons] at *
      by_cases hs : t.status = expected
      · rw [List.find?_cons_of_pos _ (by simp [h, hs]),
          List.find?_cons_of_pos _ (by simp [h])]
        simp [h, hs]
      · rw [if_neg (by
          intro hc
          exact hs hc.2)]
        rw [List.find?_cons_of_pos _ (by simp [h]),
          List.find?_cons_of_pos _ (by simp [h])]
        simp [hs]
    · simp only [sqlUpdateTokenIf, tokenStatusOf, List.map_cons] at *
      rw [if_neg (by
        intro hc
        exact h hc.1)]
      rw [List.find?_cons_of_neg _ (by simp [h]),
        List.find?_cons_of_neg _ (by simp [h])]
      exact ih

theorem statusOf_sqlUpdate_other (ts : List Token) (next : TokenStatus) (tid : String)
    (expected : TokenStatus) (tid2 : String) (hne : tid2 ≠ tid) :
    tokenStatusOf (sqlUpdateTokenIf ts next tid expected).1 tid2 =
      tokenStatusOf ts tid2 := by
  induction ts with
  | nil => rfl
  | cons t rest ih =>
    simp only [sqlUpdateTokenIf, tokenStatusOf, List.map_cons] at *
    by_cases h : t.token_id = tid2
    · rw [if_neg (by
        intro hc
        exact hne (h.symm.trans hc.1))]
      rw [List.find?_cons_of_pos _ (by simp [h]),
        List.find?_cons_of_pos _ (by simp [h])]
    · by_cases hm : t.token_id = tid ∧ t.status = expected
      · rw [if_pos hm,
          List.find?_cons_of_neg _ (by simp [h]),
          List.find?_cons_of_neg _ (by simp [h])]
        exact ih
      · rw [if_neg hm,
          List.find?_cons_of_neg _ (by simp [h]),
          List.find?_cons_of_neg _ (by simp [h])]
        exact ih

theorem sqlUpdate_map_token_id (ts : List Token) (next : TokenStatus) (tid : String)
    (expected : TokenStatus) :
    (sqlUpdateTokenIf ts next tid expected).1.map (·.token_id) = ts.map (·.token_id) := by
  simp only [sqlUpdateTokenIf, List.map_map]
  apply List.map_congr_left
  intro t _
  by_cases hm : t.token_id = tid ∧ t.status = expected
  · simp [hm]
  · simp [hm]

theorem sqlUpdate_rowcount (ts : List Token) (next : TokenStatus) (tid : String)
    (expected : TokenStatus) (hnd : (ts.map (·.token_id)).Nodup) :
    (sqlUpdateTokenIf ts next tid expected).2 =
      if tokenStatusOf ts tid = Option.some expected then 1 else 0 := by
  induction ts with
  | nil => rfl
  | cons t rest ih =>
    simp only [List.map_cons, List.nodup_cons] at hnd
    by_cases h : t.token_id = tid
    · have hfind : List.find? (fun x => decide (x.token_id = tid)) (t :: rest) = Option.some t :=
        List.find?_cons_of_pos _ (by simp [h])
      have hrest : ∀ a ∈ rest, a.token_id = tid → ¬a.status = expected := by
        intro t2 ht2 hid _
        have hmem : t2.token_id ∈ rest.map (·.token_id) := List.mem_map_of_mem _ ht2
        rw [hid, ← h] at hmem
        exact hnd.1 hmem
      by_cases hs : t.status = expected
      · simp [sqlUpdateTokenIf, tokenStatusOf, List.countP_cons, hfind, h, hs]
        exact hrest
      · simp [sqlUpdateTokenIf, tokenStatusOf, List.countP_cons, hfind, h, hs]
        exact hrest
    · have hfind : List.find? (fun x => decide (x.token_id = tid)) (t :: rest) =
          List.find? (fun x => decide (x.token_id = tid)) rest :=
        List.find?_cons_of_neg _ (by simp [h])
      have ihh := ih hnd.2
      have hzero : (decide (t.token_id = tid ∧ t.status = expected)) = false := by simp [h]
      simp only [sqlUpdateTokenIf, tokenStatusOf, List.countP_cons, hzero, Bool.false_eq_true,
        if_false, Nat.add_zero, hfind]
      simp only [sqlUpdateTokenIf, tokenStatusOf] at ihh
      exact ihh

theorem statusOf_set_token_status (ts : List Token) (tid : String) (st : TokenStatus) :
    tokenStatusOf (set_token_status ts tid st).1 tid =
      (tokenStatusOf ts tid).map (fun _ => st) := by
  induction ts with
  | nil => rfl
  | cons t rest ih =>
    simp only [set_token_status, tokenStatusOf, List.map_cons] at *
    by_cases h : t.token_id = tid
    · rw [if_pos h,
        List.find?_cons_of_pos _ (by simp [h]),
        List.find?_cons_of_pos _ (by simp [h])]
      simp
    · rw [if_neg h,
        List.find?_cons_of_neg _ (by simp [h]),
        List.find?_cons_of_neg _ (by simp [h])]
      exact ih

theorem set_token_status_snd (ts : List Token) (tid : String) (st : TokenStatus) :
    (set_token_status ts tid st).2 = true ↔ ∃ t ∈ ts, t.token_id = tid := by
  simp only [set_token_status, decide_eq_true_eq, List.countP_pos_iff, decide_eq_true_eq]

/-! ### Lemmas about the reservation loop of `create_request_multi` -/

theorem reserveTokens_map_token_id (items : List (String × String)) (ts ts2 : List Token)
    (hok : reserveTokens ts items = .ok ts2) :
    ts2.map (·.token_id) = ts.map (·.token_id) := by
  induction items generalizing ts with
  | nil =>
    simp only [reserveTokens] at hok
    cases hok
    rfl
  | cons p rest ih =>
    obtain ⟨c, tid⟩ := p
    simp only [reserveTokens] at hok
    split at hok
    · rw [ih _ hok, sqlUpdate_map_token_id]
    · cases hok

theorem reserveTokens_ok_frame (items : List (String × String)) (ts ts2 : List Token)
    (hok : reserveTokens ts items = .ok ts2) :
    ∀ tid ∉ items.map (·.2), tokenStatusOf ts2 tid = tokenStatusOf ts tid := by
  induction items generalizing ts with
  | nil =>
    simp only [reserveTokens] at hok
    cases hok
    intro tid _
    rfl
  | cons p rest ih =>
    obtain ⟨c, tid0⟩ := p
    simp only [reserveTokens] at hok
    split at hok
    · intro tid htid
      simp only [List.map_cons, List.mem_cons, not_or] at htid
      rw [ih _ hok tid htid.2, statusOf_sqlUpdate_other _ _ _ _ _ htid.1]
    · cases hok

theorem reserveTokens_ok_mem (items : List (String × String)) (ts ts2 : List Token)
    (hnd : (ts.map (·.token_id)).Nodup) (hk : (items.map (·.2)).Nodup)
    (hok : reserveTokens ts items = .ok ts2) :
    ∀ tid ∈ items.map (·.2),
      tokenStatusOf ts tid = Option.some .available ∧
      tokenStatusOf ts2 tid = Option.some .reserved := by
  induction items generalizing ts with
  | nil => simp
  | cons p rest ih =>
    obtain ⟨c, tid0⟩ := p
    simp only [List.map_cons, List.nodup_cons] at hk
    simp only [reserveTokens] at hok
    split at hok
    · rename_i hcnt
      rw [sqlUpdate_rowcount _ _ _ _ hnd] at hcnt
      have hav : tokenStatusOf ts tid0 = Option.some .available := by
        by_contra hne
        rw [if_neg hne] at hcnt
        exact absurd hcnt (by decide)
      have hnd2 : ((sqlUpdateTokenIf ts .reserved tid0 .available).1.map (·.token_id)).Nodup := by
        rw [sqlUpdate_map_token_id]
        exact hnd
      intro tid htid
      simp only [List.map_cons, List.mem_cons] at htid
      rcases htid with heq | hmem
      · subst heq
        refine ⟨hav, ?_⟩
        rw [reserveTokens_ok_frame rest _ _ hok tid hk.1,
          statusOf_sqlUpdate_self, hav]
        rfl
      · have hne : tid ≠ tid0 := fun hc => hk.1 (hc ▸ hmem)
        have := ih _ hnd2 hk.2 hok tid hmem
        rw [statusOf_sqlUpdate_other _ _ _ _ _ hne] at this
        exact this
    · cases hok

theorem reserveTokens_success (items : List (String × String)) (ts : List Token)
    (hnd : (ts.map (·.token_id)).Nodup) (hk : (items.map (·.2)).Nodup)
    (hav : ∀ tid ∈ items.map (·.2), tokenStatusOf ts tid = Option.some .available) :
    ∃ ts2, reserveTokens ts items = .ok ts2 := by
  induction items generalizing ts with
  | nil => exact ⟨ts, rfl⟩
  | cons p rest ih =>
    obtain ⟨c, tid0⟩ := p
    simp only [List.map_cons, List.nodup_cons] at hk
    have hav0 : tokenStatusOf ts tid0 = Option.some .available :=
      hav tid0 (by simp)
    have hcnt : (sqlUpdateTokenIf ts .reserved tid0 .available).2 = 1 := by
      rw [sqlUpdate_rowcount _ _ _ _ hnd, if_pos hav0]
    have hnd2 : ((sqlUpdateTokenIf ts .reserved tid0 .available).1.map (·.token_id)).Nodup := by
      rw [sqlUpdate_map_token_id]
      exact hnd
    have hav2 : ∀ tid ∈ rest.map (·.2),
        tokenStatusOf (sqlUpdateTokenIf ts .reserved tid0 .available).1 tid =
          Option.some .available := by
      intro tid hmem
      have hne : tid ≠ tid0 := fun hc => hk.1 (hc ▸ hmem)
      rw [statusOf_sqlUpdate_other _ _ _ _ _ hne]
      exact hav tid (by simp [hmem])
    obtain ⟨ts2, hts2⟩ := ih _ hnd2 hk.2 hav2
    refine ⟨ts2, ?_⟩
    simp only [reserveTokens, hcnt, if_pos]
    exact hts2

/-! ### Lemmas about the availability pre-check of `create_request_multi` -/

theorem checkAvailable_ok_iff (items : List (String × String)) (ts : List Token) :
    checkAvailable ts items = .ok () ↔
      ∀ tid ∈ items.map (·.2), tokenStatusOf ts tid = Option.some .available := by
  induction items with
  | nil => simp [checkAvailable]
  | cons p rest ih =>
    obtain ⟨c, tid0⟩ := p
    simp only [checkAvailable, List.map_cons, List.mem_cons]
    cases hfind : ts.find? (fun t => decide (t.token_id = tid0)) with
    | none =>
      simp only [tokenStatusOf]
      constructor
      · intro hc
        cases hc
      · intro hall
        have := hall tid0 (Or.inl rfl)
        rw [hfind] at this
        cases this
    | some t =>
      dsimp only
      by_cases hs : t.status = TokenStatus.available
      · rw [if_pos hs, ih]
        constructor
        · intro hall tid htid
          rcases htid with heq | hmem
          · subst heq
            simp [tokenStatusOf, hfind, hs]
          · exact hall tid hmem
        · intro hall tid htid
          exact hall tid (Or.inr htid)
      · rw [if_neg hs]
        constructor
        · intro hc
          cases hc
        · intro hall
          have := hall tid0 (Or.inl rfl)
          simp only [tokenStatusOf, hfind, Option.map_some] at this
          exact absurd (Option.some.inj this) hs

/-! ### Lemmas about the dict-based deduplication (db.py 310-313) -/

theorem updEntry_keys_pos (acc : List (String × String)) (tid c : String)
    (h : tid ∈ acc.map (·.1)) :
    (updEntry acc tid c).map (·.1) = acc.map (·.1) := by
  unfold updEntry
  rw [if_pos (by
    rw [List.any_eq_true]
    obtain ⟨q, hq, hq1⟩ := List.mem_map.mp h
    exact ⟨q, hq, by simp [hq1]⟩)]
  rw [List.map_map]
  apply List.map_congr_left
  intro q _
  by_cases hq : q.1 = tid
  · simp [hq]
  · simp [hq]

theorem updEntry_keys_neg (acc : List (String × String)) (tid c : String)
    (h : tid ∉ acc.map (·.1)) :
    (updEntry acc tid c).map (·.1) = acc.map (·.1) ++ [tid] := by
  unfold updEntry
  rw [if_neg (by
    rw [List.any_eq_true]
    rintro ⟨q, hq, hq1⟩
    simp only [decide_eq_true_eq] at hq1
    exact h (hq1 ▸ List.mem_map_of_mem (·.1) hq))]
  simp

theorem find?_updEntry_self (acc : List (String × String)) (tid c : String) :
    (updEntry acc tid c).find? (fun q => decide (q.1 = tid)) = Option.some (tid, c) := by
  unfold updEntry
  by_cases h : acc.any (fun q => decide (q.1 = tid))
  · rw [if_pos h]
    rw [List.find?_map]
    have hpred : ((fun q : String × String => decide (q.1 = tid)) ∘
        (fun q : String × String => if q.1 = tid then (q.1, c) else q)) =
        (fun q : String × String => decide (q.1 = tid)) := by
      funext q
      by_cases hq : q.1 = tid
      · simp [hq]
      · simp [hq]
    rw [hpred]
    have : ∃ q, acc.find? (fun q => decide (q.1 = tid)) = Option.some q := by
      rw [← Option.isSome_iff_exists, List.find?_isSome]
      rw [List.any_eq_true] at h
      exact h
    obtain ⟨q0, hq0⟩ := this
    have hq01 : q0.1 = tid := by
      have := List.find?_some hq0
      simpa using this
    rw [hq0]
    simp [hq01]
  · rw [if_neg h]
    rw [List.find?_append]
    have hnone : acc.find? (fun q => decide (q.1 = tid)) = Option.none := by
      rw [List.find?_eq_none]
      intro q hq
      simp only [decide_eq_true_eq]
      intro hq1
      rw [List.any_eq_true] at h
      exact h ⟨q, hq, by simp [hq1]⟩
    rw [hnone]
    simp

theorem find?_updEntry_other (acc : List (String × String)) (tid c tid2 : String)
    (hne : tid2 ≠ tid) :
    (updEntry acc tid c).find? (fun q => decide (q.1 = tid2)) =
      acc.find? (fun q => decide (q.1 = tid2)) := by
  unfold updEntry
  by_cases h : acc.any (fun q => decide (q.1 = tid))
  · rw [if_pos h]
    rw [List.find?_map]
    have hpred : ((fun q : String × String => decide (q.1 = tid2)) ∘
        (fun q : String × String => if q.1 = tid then (q.1, c) else q)) =
        (fun q : String × String => decide (q.1 = tid2)) := by
      funext q
      by_cases hq : q.1 = tid
      · simp [hq, Ne.symm hne]
      · simp [hq]
    rw [hpred]
    cases hq0 : acc.find? (fun q => decide (q.1 = tid2)) with
    | none => rfl
    | some q0 =>
      have hq01 : q0.1 = tid2 := by
        have := List.find?_some hq0
        simpa using this
      simp [hq01, hne]
  · rw [if_neg h]
    rw [List.find?_append]
    cases hq0 : acc.find? (fun q => decide (q.1 = tid2)) with
    | none => simp [Ne.symm hne]
    | some q0 => simp

theorem lastCompany_cons (c t : String) (rest : List (String × String)) (tid : String) :
    lastCompany ((c, t) :: rest) tid =
      match lastCompany rest tid with
      | Option.some c2 => Option.some c2
      | Option.none => if t = tid then Option.some c else Option.none := by
  unfold lastCompany
  rw [List.reverse_cons, List.find?_append]
  cases hq : rest.reverse.find? (fun p => decide (p.2 = tid)) with
  | none =>
    by_cases ht : t = tid
    · simp [ht]
    · simp [ht]
  | some q => simp

theorem find?_uniqFold (items : List (String × String)) (acc : List (String × String))
    (tid : String) :
    (uniqFold items acc).find? (fun q => decide (q.1 = tid)) =
      match lastCompany items tid with
      | Option.some c => Option.some (tid, c)
      | Option.none => acc.find? (fun q => decide (q.1 = tid)) := by
  induction items generalizing acc with
  | nil => simp [uniqFold, lastCompany]
  | cons p rest ih =>
    obtain ⟨c, t⟩ := p
    rw [show uniqFold ((c, t) :: rest) acc = uniqFold rest (updEntry acc t c) from rfl]
    rw [ih, lastCompany_cons]
    cases hq : lastCompany rest tid with
    | some c2 => rfl
    | none =>
      by_cases ht : t = tid
      · subst ht
        simp [find?_updEntry_self]
      · simp only [if_neg ht]
        exact find?_updEntry_other acc t c tid (fun hc => ht hc.symm)

theorem keys_uniqFold_mem (items : List (String × String)) (acc : List (String × String))
    (tid : String) :
    tid ∈ (uniqFold items acc).map (·.1) ↔
      tid ∈ acc.map (·.1) ∨ tid ∈ items.map (·.2) := by
  induction items generalizing acc with
  | nil => simp [uniqFold]
  | cons p rest ih =>
    obtain ⟨c, t⟩ := p
    rw [show uniqFold ((c, t) :: rest) acc = uniqFold rest (updEntry acc t c) from rfl]
    rw [ih]
    by_cases h : t ∈ acc.map (·.1)
    · rw [updEntry_keys_pos acc t c h]
      simp only [List.map_cons, List.mem_cons]
      constructor
      · rintro (ha | hr)
        · exact Or.inl ha
        · exact Or.inr (Or.inr hr)
      · rintro (ha | ht | hr)
        · exact Or.inl ha
        · exact Or.inl (ht ▸ h)
        · exact Or.inr hr
    · rw [updEntry_keys_neg acc t c h]
      simp only [List.map_cons, List.mem_cons, List.mem_append, List.mem_singleton]
      tauto

theorem keys_uniqFold_nodup (items : List (String × String)) (acc : List (String × String))
    (hnd : (acc.map (·.1)).Nodup) :
    ((uniqFold items acc).map (·.1)).Nodup := by
  induction items generalizing acc with
  | nil => exact hnd
  | cons p rest ih =>
    obtain ⟨c, t⟩ := p
    rw [show uniqFold ((c, t) :: rest) acc = uniqFold rest (updEntry acc t c) from rfl]
    apply ih
    by_cases h : t ∈ acc.map (·.1)
    · rw [updEntry_keys_pos acc t c h]
      exact hnd
    · rw [updEntry_keys_neg acc t c h]
      simp [List.nodup_append, hnd, h]

theorem dedupItems_keys_eq (items : List (String × String)) :
    (dedupItems items).map (·.2) = (uniqFold items []).map (·.1) := by
  unfold dedupItems
  rw [List.map_map]
  rfl

theorem dedupItems_keys_nodup (items : List (String × String)) :
    ((dedupItems items).map (·.2)).Nodup := by
  rw [dedupItems_keys_eq]
  exact keys_uniqFold_nodup items [] (by simp)

theorem mem_dedupItems_keys (items : List (String × String)) (tid : String) :
    tid ∈ (dedupItems items).map (·.2) ↔ tid ∈ items.map (·.2) := by
  rw [dedupItems_keys_eq, keys_uniqFold_mem]
  simp

theorem find?_dedupItems (items : List (String × String)) (tid : String) :
    (dedupItems items).find? (fun p => decide (p.2 = tid)) =
      (lastCompany items tid).map (fun c => (c, tid)) := by
  unfold dedupItems
  rw [List.find?_map]
  have hpred : ((fun p : String × String => decide (p.2 = tid)) ∘
      (fun q : String × String => (q.2, q.1))) =
      (fun q : String × String => decide (q.1 = tid)) := by
    funext q
    rfl
  rw [hpred, find?_uniqFold]
  cases hq : lastCompany items tid with
  | none => simp [List.find?_nil]
  | some c => rfl

theorem countP_eq_of_nodup {α : Type} [DecidableEq α] (l : List α) (a : α)
    (h : l.Nodup) :
    l.countP (fun x => decide (x = a)) = if a ∈ l then 1 else 0 := by
  induction l with
  | nil => rfl
  | cons x rest ih =>
    simp only [List.nodup_cons] at h
    rw [List.countP_cons, ih h.2]
    by_cases hx : x = a
    · subst hx
      simp [h.1]
    · by_cases ha : a ∈ rest
      · simp [hx, ha, Ne.symm hx]
      · simp [hx, ha, Ne.symm hx]

theorem dedupItems_countP (items : List (String × String)) (tid : String) :
    (dedupItems items).countP (fun p => decide (p.2 = tid)) =
      if tid ∈ items.map (·.2) then 1 else 0 := by
  have h1 : (dedupItems items).countP (fun p => decide (p.2 = tid)) =
      ((dedupItems items).map (·.2)).countP (fun k => decide (k = tid)) := by
    rw [List.countP_map]
    rfl
  rw [h1, countP_eq_of_nodup _ _ (dedupItems_keys_nodup items)]
  by_cases h : tid ∈ items.map (·.2)
  · rw [if_pos ((mem_dedupItems_keys items tid).mpr h), if_pos h]
  · rw [if_neg (fun hc => h ((mem_dedupItems_keys items tid).mp hc)), if_neg h]

/-! ### Lemmas about the conditional update on `requests` -/

theorem find?_sqlUpdateRequestIf_self (rs : List Request) (f : Request → Request)
    (rid : Nat) (exp : ReqStatus) (hf : ∀ r, (f r).id = r.id) :
    (sqlUpdateRequestIf rs f rid exp).1.find? (fun r => decide (r.id = rid)) =
      (rs.find? (fun r => decide (r.id = rid))).map
        (fun r => if r.status = exp then f r else r) := by
  induction rs with
  | nil => rfl
  | cons r rest ih =>
    simp only [sqlUpdateRequestIf, List.map_cons] at *
    by_cases h : r.id = rid
    · by_cases hs : r.status = exp
      · rw [if_pos ⟨h, hs⟩]
        rw [List.find?_cons_of_pos _ (by simp [hf, h]),
          List.find?_cons_of_pos _ (by simp [h])]
        simp [hs]
      · rw [if_neg (fun hc => hs hc.2)]
        rw [List.find?_cons_of_pos _ (by simp [h]),
          List.find?_cons_of_pos _ (by simp [h])]
        simp [hs]
    · rw [if_neg (fun hc => h hc.1)]
      rw [List.find?_cons_of_neg _ (by simp [h]),
        List.find?_cons_of_neg _ (by simp [h])]
      exact ih

theorem find?_sqlUpdateRequestIf_other (rs : List Request) (f : Request → Request)
    (rid : Nat) (exp : ReqStatus) (hf : ∀ r, (f r).id = r.id) (rid2 : Nat)
    (hne : rid2 ≠ rid) :
    (sqlUpdateRequestIf rs f rid exp).1.find? (fun r => decide (r.id = rid2)) =
      rs.find? (fun r => decide (r.id = rid2)) := by
  induction rs with
  | nil => rfl
  | cons r rest ih =>
    simp only [sqlUpdateRequestIf, List.map_cons] at *
    by_cases h : r.id = rid2
    · rw [if_neg (fun hc => hne (h.symm.trans hc.1))]
      rw [List.find?_cons_of_pos _ (by simp [h]),
        List.find?_cons_of_pos _ (by simp [h])]
    · by_cases hm : r.id = rid ∧ r.status = exp
      · rw [if_pos hm,
          List.find?_cons_of_neg _ (by simp [hf, h]),
          List.find?_cons_of_neg _ (by simp [h])]
        exact ih
      · rw [if_neg hm,
          List.find?_cons_of_neg _ (by simp [h]),
          List.find?_cons_of_neg _ (by simp [h])]
        exact ih

theorem sqlUpdateRequestIf_map_id (rs : List Request) (f : Request → Request)
    (rid : Nat) (exp : ReqStatus) (hf : ∀ r, (f r).id = r.id) :
    (sqlUpdateRequestIf rs f rid exp).1.map (·.id) = rs.map (·.id) := by
  simp only [sqlUpdateRequestIf, List.map_map]
  apply List.map_congr_left
  intro r _
  by_cases hm : r.id = rid ∧ r.status = exp
  · simp [hm, hf]
  · simp [hm]

theorem sqlUpdateRequestIf_rowcount (rs : List Request) (f : Request → Request)
    (rid : Nat) (exp : ReqStatus) (hnd : (rs.map (·.id)).Nodup) :
    (sqlUpdateRequestIf rs f rid exp).2 =
      if (rs.find? (fun r => decide (r.id = rid))).map (·.status) = Option.some exp
      then 1 else 0 := by
  induction rs with
  | nil => rfl
  | cons r rest ih =>
    simp only [List.map_cons, List.nodup_cons] at hnd
    by_cases h : r.id = rid
    · have hfind : List.find? (fun x => decide (x.id = rid)) (r :: rest) = Option.some r :=
        List.find?_cons_of_pos _ (by simp [h])
      have hrest : ∀ a ∈ rest, a.id = rid → ¬a.status = exp := by
        intro r2 hr2 hid _
        have hmem : r2.id ∈ rest.map (·.id) := List.mem_map_of_mem _ hr2
        rw [hid, ← h] at hmem
        exact hnd.1 hmem
      by_cases hs : r.status = exp
      · simp [sqlUpdateRequestIf, List.countP_cons, hfind, h, hs]
        exact hrest
      · simp [sqlUpdateRequestIf, List.countP_cons, hfind, h, hs]
        exact hrest
    · have hfind : List.find? (fun x => decide (x.id = rid)) (r :: rest) =
          List.find? (fun x => decide (x.id = rid)) rest :=
        List.find?_cons_of_neg _ (by simp [h])
      have ihh := ih hnd.2
      have hzero : (decide (r.id = rid ∧ r.status = exp)) = false := by simp [h]
      simp only [sqlUpdateRequestIf, List.countP_cons, hzero, Bool.false_eq_true,
        if_false, Nat.add_zero, hfind]
      simp only [sqlUpdateRequestIf] at ihh
      exact ihh

/-! ### Lemmas about the per-item token loop -/

theorem updateItemTokens_map_token_id (next expected : TokenStatus) (items : List Item)
    (ts ts2 : List Token) (hok : updateItemTokens next expected items ts = .ok ts2) :
    ts2.map (·.token_id) = ts.map (·.token_id) := by
  induction items generalizing ts with
  | nil =>
    simp only [updateItemTokens] at hok
    cases hok
    rfl
  | cons it rest ih =>
    simp only [updateItemTokens] at hok
    split at hok
    · rw [ih _ hok, sqlUpdate_map_token_id]
    · cases hok

theorem updateItemTokens_ok_frame (next expected : TokenStatus) (items : List Item)
    (ts ts2 : List Token) (hok : updateItemTokens next expected items ts = .ok ts2) :
    ∀ tid ∉ items.map (·.token_id), tokenStatusOf ts2 tid = tokenStatusOf ts tid := by
  induction items generalizing ts with
  | nil =>
    simp only [updateItemTokens] at hok
    cases hok
    intro tid _
    rfl
  | cons it rest ih =>
    simp only [updateItemTokens] at hok
    split at hok
    · intro tid htid
      simp only [List.map_cons, List.mem_cons, not_or] at htid
      rw [ih _ hok tid htid.2, statusOf_sqlUpdate_other _ _ _ _ _ htid.1]
    · cases hok

theorem updateItemTokens_ok_mem (next expected : TokenStatus) (items : List Item)
    (ts ts2 : List Token) (hnd : (ts.map (·.token_id)).Nodup)
    (hk : (items.map (·.token_id)).Nodup)
    (hok : updateItemTokens next expected items ts = .ok ts2) :
    ∀ tid ∈ items.map (·.token_id),
      tokenStatusOf ts tid = Option.some expected ∧
      tokenStatusOf ts2 tid = Option.some next := by
  induction items generalizing ts with
  | nil => simp
  | cons it rest ih =>
    simp only [List.map_cons, List.nodup_cons] at hk
    simp only [updateItemTokens] at hok
    split at hok
    · rename_i hcnt
      rw [sqlUpdate_rowcount _ _ _ _ hnd] at hcnt
      have hexp : tokenStatusOf ts it.token_id = Option.some expected := by
        by_contra hne
        rw [if_neg hne] at hcnt
        exact absurd hcnt (by decide)
      have hnd2 : ((sqlUpdateTokenIf ts next it.token_id expected).1.map (·.token_id)).Nodup := by
        rw [sqlUpdate_map_token_id]
        exact hnd
      intro tid htid
      simp only [List.map_cons, List.mem_cons] at htid
      rcases htid with heq | hmem
      · subst heq
        refine ⟨hexp, ?_⟩
        rw [updateItemTokens_ok_frame next expected rest _ _ hok _ hk.1,
          statusOf_sqlUpdate_self, hexp]
        simp
      · have hne : tid ≠ it.token_id := fun hc => hk.1 (hc ▸ hmem)
        have := ih _ hnd2 hk.2 hok tid hmem
        rw [statusOf_sqlUpdate_other _ _ _ _ _ hne] at this
        exact this
    · cases hok

theorem updateItemTokens_success (next expected : TokenStatus) (items : List Item)
    (ts : List Token) (hnd : (ts.map (·.token_id)).Nodup)
    (hk : (items.map (·.token_id)).Nodup)
    (hexp : ∀ tid ∈ items.map (·.token_id), tokenStatusOf ts tid = Option.some expected) :
    ∃ ts2, updateItemTokens next expected items ts = .ok ts2 := by
  induction items generalizing ts with
  | nil => exact ⟨ts, rfl⟩
  | cons it rest ih =>
    simp only [List.map_cons, List.nodup_cons] at hk
    have hexp0 : tokenStatusOf ts it.token_id = Option.some expected :=
      hexp it.token_id (by simp)
    have hcnt : (sqlUpdateTokenIf ts next it.token_id expected).2 = 1 := by
      rw [sqlUpdate_rowcount _ _ _ _ hnd, if_pos hexp0]
    have hnd2 : ((sqlUpdateTokenIf ts next it.token_id expected).1.map (·.token_id)).Nodup := by
      rw [sqlUpdate_map_token_id]
      exact hnd
    have hexp2 : ∀ tid ∈ rest.map (·.token_id),
        tokenStatusOf (sqlUpdateTokenIf ts next it.token_id expected).1 tid =
          Option.some expected := by
      intro tid hmem
      have hne : tid ≠ it.token_id := fun hc => hk.1 (hc ▸ hmem)
      rw [statusOf_sqlUpdate_other _ _ _ _ _ hne]
      exact hexp tid (by simp [hmem])
    obtain ⟨ts2, hts2⟩ := ih _ hnd2 hk.2 hexp2
    refine ⟨ts2, ?_⟩
    simp only [updateItemTokens, hcnt, if_pos]
    exact hts2

/-! ### Lemmas about `request_items_tx` -/

theorem mem_request_items_tx (s : DBState) (rid : Nat) (it : Item) :
    it ∈ request_items_tx s rid ↔ it ∈ s.request_items ∧ it.request_id = rid := by
  unfold request_items_tx
  rw [List.Perm.mem_iff (List.mergeSort_perm _ _), List.mem_filter]
  simp

theorem mem_itemsTids (s : DBState) (rid : Nat) (tid : String) :
    tid ∈ (request_items_tx s rid).map (·.token_id) ↔ refsId s.request_items rid tid := by
  rw [List.mem_map]
  unfold refsId
  constructor
  · rintro ⟨it, hit, htid⟩
    rw [mem_request_items_tx] at hit
    exact ⟨it, hit.1, hit.2, htid⟩
  · rintro ⟨it, hit, hrid, htid⟩
    exact ⟨it, (mem_request_items_tx s rid it).mpr ⟨hit, hrid⟩, htid⟩

theorem nodup_itemsTids (s : DBState) (rid : Nat)
    (hnd : (s.request_items.map (fun it => (it.request_id, it.token_id))).Nodup) :
    ((request_items_tx s rid).map (·.token_id)).Nodup := by
  have hperm : (request_items_tx s rid).Perm
      (s.request_items.filter (fun it => decide (it.request_id = rid))) :=
    List.mergeSort_perm _ _
  rw [List.Perm.nodup_iff (List.Perm.map _ hperm)]
  have hsub : ((s.request_items.filter (fun it => decide (it.request_id = rid))).map
      (fun it => (it.request_id, it.token_id))).Nodup :=
    List.Nodup.sublist (List.Sublist.map _ (List.filter_sublist _)) hnd
  have hinj := List.inj_on_of_nodup_map hsub
  apply List.Nodup.map_on
  · intro x hx y hy hxy
    have hxr : x.request_id = rid := by
      have := List.mem_filter.mp hx
      simpa using this.2
    have hyr : y.request_id = rid := by
      have := List.mem_filter.mp hy
      simpa using this.2
    exact hinj hx hy (by rw [hxr, hyr, hxy])
  · exact List.Nodup.sublist (List.filter_sublist _) (List.Nodup.of_map _ hnd)

/-! ### The common shape of `director_decide` / `officer_issue` / `officer_return` -/

theorem director_decide_eq_step (s : DBState) (now : Nat) (request_id : Nat)
    (director_tg_id : Int) (approve : Bool) :
    director_decide s now request_id director_tg_id approve =
      lifecycleStep s .REQUESTED
        (fun r => { r with
          status := if approve then ReqStatus.APPROVED else ReqStatus.REJECTED,
          approved_by := Option.some director_tg_id,
          approved_at := Option.some now })
        (if approve then TokenStatus.reserved else TokenStatus.available) .reserved
        (statusName (if approve then ReqStatus.APPROVED else ReqStatus.REJECTED))
        director_tg_id request_id := rfl

theorem officer_issue_eq_step (s : DBState) (now : Nat) (request_id : Nat)
    (officer_tg_id : Int) :
    officer_issue s now request_id officer_tg_id =
      lifecycleStep s .APPROVED
        (fun r => { r with
          status := ReqStatus.ISSUED,
          issued_by := Option.some officer_tg_id,
          issued_at := Option.some now })
        .issued .reserved "ISSUED" officer_tg_id request_id := rfl

theorem officer_return_eq_step (s : DBState) (now : Nat) (request_id : Nat)
    (officer_tg_id : Int) :
    officer_return s now request_id officer_tg_id =
      lifecycleStep s .ISSUED
        (fun r => { r with
          status := ReqStatus.RETURNED,
          returned_by := Option.some officer_tg_id,
          returned_at := Option.some now })
        .available .issued "RETURNED" officer_tg_id request_id := rfl

theorem lifecycleStep_notFound (s : DBState) (expected : ReqStatus)
    (g : Request → Request) (want expTok : TokenStatus) (action : String)
    (actor : Int) (request_id : Nat)
    (hfind : s.requests.find? (fun r => decide (r.id = request_id)) = Option.none) :
    lifecycleStep s expected g want expTok action actor request_id = (s, .none) := by
  unfold lifecycleStep
  rw [hfind]

theorem lifecycleStep_invalid (s : DBState) (expected : ReqStatus)
    (g : Request → Request) (want expTok : TokenStatus) (action : String)
    (actor : Int) (request_id : Nat) (row : Request)
    (hfind : s.requests.find? (fun r => decide (r.id = request_id)) = Option.some row)
    (hst : row.status ≠ expected) :
    lifecycleStep s expected g want expTok action actor request_id =
      (s, .err .invalidStatus) := by
  unfold lifecycleStep
  rw [hfind]
  dsimp only
  rw [if_pos hst]

theorem lifecycleStep_ok_inv (s : DBState) (expected : ReqStatus)
    (g : Request → Request) (want expTok : TokenStatus) (action : String)
    (actor : Int) (request_id : Nat) (s' : DBState) (r' : Request)
    (h : lifecycleStep s expected g want expTok action actor request_id = (s', .ok r'))
    (hg : ∀ r, (g r).id = r.id)
    (hndreq : (s.requests.map (·.id)).Nodup)
    (hndtok : (s.tokens.map (·.token_id)).Nodup)
    (hnditems : (s.request_items.map (fun it => (it.request_id, it.token_id))).Nodup) :
    ∃ row, s.requests.find? (fun r => decide (r.id = request_id)) = Option.some row ∧
      row.status = expected ∧
      r' = g row ∧
      s'.requests = (sqlUpdateRequestIf s.requests g request_id expected).1 ∧
      s'.request_items = s.request_items ∧
      s'.waitlist = s.waitlist ∧
      s'.nextRequestId = s.nextRequestId ∧
      s'.audit_log = s.audit_log ++
        [{ request_id := Option.some request_id, actor_tg_id := actor, action := action }] ∧
      (∀ tid, refsId s.request_items request_id tid →
        tokenStatusOf s.tokens tid = Option.some expTok ∧
        tokenStatusOf s'.tokens tid = Option.some want) ∧
      (∀ tid, ¬refsId s.request_items request_id tid →
        tokenStatusOf s'.tokens tid = tokenStatusOf s.tokens tid) ∧
      s'.tokens.map (·.token_id) = s.tokens.map (·.token_id) := by
  unfold lifecycleStep at h
  cases hfind : s.requests.find? (fun r => decide (r.id = request_id)) with
  | none =>
    rw [hfind] at h
    injection h with h1 h2
    cases h2
  | some row =>
    rw [hfind] at h
    dsimp only at h
    by_cases hst : row.status = expected
    · rw [if_neg (not_not_intro hst)] at h
      have hcnt : (sqlUpdateRequestIf s.requests g request_id expected).2 = 1 := by
        rw [sqlUpdateRequestIf_rowcount _ _ _ _ hndreq, hfind]
        simp [hst]
      rw [if_neg (by simp [hcnt])] at h
      cases hupd : updateItemTokens want expTok (request_items_tx s request_id) s.tokens with
      | error e =>
        rw [hupd] at h
        injection h with h1 h2
        cases h2
      | ok ts2 =>
        rw [hupd] at h
        have hfind2 : (sqlUpdateRequestIf s.requests g request_id expected).1.find?
            (fun r => decide (r.id = request_id)) = Option.some (g row) := by
          rw [find?_sqlUpdateRequestIf_self _ _ _ _ hg, hfind]
          simp [hst]
        rw [hfind2] at h
        dsimp only at h
        injection h with h1 h2
        injection h2 with h3
        subst h1
        have hndt := nodup_itemsTids s request_id hnditems
        refine ⟨row, rfl, hst, h3.symm, rfl, rfl, rfl, rfl, rfl, ?_, ?_, ?_⟩
        · intro tid href
          exact updateItemTokens_ok_mem want expTok _ _ _ hndtok hndt hupd tid
            ((mem_itemsTids s request_id tid).mpr href)
        · intro tid href
          exact updateItemTokens_ok_frame want expTok _ _ _ hupd tid
            (fun hc => href ((mem_itemsTids s request_id tid).mp hc))
        · exact updateItemTokens_map_token_id want expTok _ _ _ hupd
    · rw [if_pos hst] at h
      injection h with h1 h2
      cases h2

theorem lifecycleStep_success (s : DBState) (expected : ReqStatus)
    (g : Request → Request) (want expTok : TokenStatus) (action : String)
    (actor : Int) (request_id : Nat) (row : Request)
    (hg : ∀ r, (g r).id = r.id)
    (hndreq : (s.requests.map (·.id)).Nodup)
    (hndtok : (s.tokens.map (·.token_id)).Nodup)
    (hnditems : (s.request_items.map (fun it => (it.request_id, it.token_id))).Nodup)
    (hfind : s.requests.find? (fun r => decide (r.id = request_id)) = Option.some row)
    (hst : row.status = expected)
    (htok : ∀ tid, refsId s.request_items request_id tid →
      tokenStatusOf s.tokens tid = Option.some expTok) :
    ∃ s', lifecycleStep s expected g want expTok action actor request_id =
      (s', .ok (g row)) := by
  unfold lifecycleStep
  rw [hfind]
  dsimp only
  rw [if_neg (not_not_intro hst)]
  have hcnt : (sqlUpdateRequestIf s.requests g request_id expected).2 = 1 := by
    rw [sqlUpdateRequestIf_rowcount _ _ _ _ hndreq, hfind]
    simp [hst]
  rw [if_neg (by simp [hcnt])]
  have hndt := nodup_itemsTids s request_id hnditems
  obtain ⟨ts2, hts2⟩ := updateItemTokens_success want expTok (request_items_tx s request_id)
    s.tokens hndtok hndt (by
      intro tid hmem
      exact htok tid ((mem_itemsTids s request_id tid).mp hmem))
  rw [hts2]
  have hfind2 : (sqlUpdateRequestIf s.requests g request_id expected).1.find?
      (fun r => decide (r.id = request_id)) = Option.some (g row) := by
    rw [find?_sqlUpdateRequestIf_self _ _ _ _ hg, hfind]
    simp [hst]
  rw [hfind2]
  exact ⟨_, rfl⟩

/-! ### Characterization of `create_request_multi` -/

theorem create_err_state (s : DBState) (now : Nat) (tg_id : Int) (username : String)
    (items : List (String × String)) (purpose : String) (comment : Option String)
    (s' : DBState) (e : DbErr)
    (h : create_request_multi s now tg_id username items purpose comment = (s', .error e)) :
    s' = s := by
  unfold create_request_multi at h
  dsimp only at h
  cases hchk : checkAvailable s.tokens (dedupItems items) with
  | error e2 =>
    rw [hchk] at h
    injection h with h1 h2
    exact h1.symm
  | ok u =>
    rw [hchk] at h
    dsimp only at h
    cases hres : reserveTokens s.tokens (dedupItems items) with
    | error e2 =>
      rw [hres] at h
      injection h with h1 h2
      exact h1.symm
    | ok ts2 =>
      rw [hres] at h
      injection h with h1 h2
      cases h2

theorem create_ok_inv (s : DBState) (now : Nat) (tg_id : Int) (username : String)
    (items : List (String × String)) (purpose : String) (comment : Option String)
    (s' : DBState) (rid : Nat)
    (h : create_request_multi s now tg_id username items purpose comment = (s', .ok rid)) :
    rid = s.nextRequestId ∧
    checkAvailable s.tokens (dedupItems items) = .ok () ∧
    ∃ ts2, reserveTokens s.tokens (dedupItems items) = .ok ts2 ∧
      s' = createCommitted s now tg_id username items purpose comment ts2 := by
  unfold create_request_multi at h
  dsimp only at h
  cases hchk : checkAvailable s.tokens (dedupItems items) with
  | error e2 =>
    rw [hchk] at h
    injection h with h1 h2
    cases h2
  | ok u =>
    rw [hchk] at h
    dsimp only at h
    cases hres : reserveTokens s.tokens (dedupItems items) with
    | error e2 =>
      rw [hres] at h
      injection h with h1 h2
      cases h2
    | ok ts2 =>
      rw [hres] at h
      injection h with h1 h2
      injection h2 with h3
      refine ⟨h3.symm, by cases u; rfl, ts2, rfl, ?_⟩
      rw [← h1]
      rfl

theorem create_success (s : DBState) (now : Nat) (tg_id : Int) (username : String)
    (items : List (String × String)) (purpose : String) (comment : Option String)
    (hndtok : (s.tokens.map (·.token_id)).Nodup)
    (hav : ∀ tid ∈ items.map (·.2), tokenStatusOf s.tokens tid = Option.some .available) :
    ∃ ts2, reserveTokens s.tokens (dedupItems items) = .ok ts2 ∧
      create_request_multi s now tg_id username items purpose comment =
        (createCommitted s now tg_id username items purpose comment ts2,
         .ok s.nextRequestId) := by
  have hav2 : ∀ tid ∈ (dedupItems items).map (·.2),
      tokenStatusOf s.tokens tid = Option.some .available := by
    intro tid hmem
    exact hav tid ((mem_dedupItems_keys items tid).mp hmem)
  have hchk : checkAvailable s.tokens (dedupItems items) = .ok () :=
    (checkAvailable_ok_iff _ _).mpr hav2
  obtain ⟨ts2, hts2⟩ := reserveTokens_success (dedupItems items) s.tokens hndtok
    (dedupItems_keys_nodup items) hav2
  refine ⟨ts2, hts2, ?_⟩
  unfold create_request_multi
  dsimp only
  rw [hchk]
  dsimp only
  rw [hts2]
  rfl

/-! ### Preservation of schema integrity -/

theorem WF_lifecycleStep (s : DBState) (expected : ReqStatus)
    (g : Request → Request) (want expTok : TokenStatus) (action : String)
    (actor : Int) (request_id : Nat) (s' : DBState) (r' : Request)
    (h : lifecycleStep s expected g want expTok action actor request_id = (s', .ok r'))
    (hg : ∀ r, (g r).id = r.id) (hwf : WF s) :
    WF s' := by
  obtain ⟨hnd1, hnd2, hlt, hfk, hnd3, haud⟩ := hwf
  obtain ⟨row, hfind, hst, hr, hreq, hitems, hwl, hnext, hlog, _, _, hids⟩ :=
    lifecycleStep_ok_inv s expected g want expTok action actor request_id s' r'
      h hg hnd2 hnd1 hnd3
  have hrowmem : row ∈ s.requests := List.mem_of_find?_eq_some hfind
  have hrowid : row.id = request_id := by
    have := List.find?_some hfind
    simpa using this
  refine ⟨?_, ?_, ?_, ?_, ?_, ?_⟩
  · rw [hids]
    exact hnd1
  · rw [hreq, sqlUpdateRequestIf_map_id _ _ _ _ hg]
    exact hnd2
  · intro r hr2
    rw [hreq] at hr2
    simp only [sqlUpdateRequestIf, List.mem_map] at hr2
    obtain ⟨q, hq, hqe⟩ := hr2
    rw [hnext]
    by_cases hm : q.id = request_id ∧ q.status = expected
    · rw [if_pos hm] at hqe
      rw [← hqe, hg]
      exact hlt q hq
    · rw [if_neg hm] at hqe
      rw [← hqe]
      exact hlt q hq
  · intro it hit
    rw [hitems] at hit
    obtain ⟨r0, hr0, hid0⟩ := hfk it hit
    refine ⟨if r0.id = request_id ∧ r0.status = expected then g r0 else r0, ?_, ?_⟩
    · rw [hreq]
      simp only [sqlUpdateRequestIf, List.mem_map]
      exact ⟨r0, hr0, rfl⟩
    · by_cases hm : r0.id = request_id ∧ r0.status = expected
      · rw [if_pos hm, hg]
        exact hid0
      · rw [if_neg hm]
        exact hid0
  · rw [hitems]
    exact hnd3
  · intro a ha rid0 hrid0
    rw [hlog] at ha
    rw [hnext]
    rcases List.mem_append.mp ha with hold | hnew
    · exact haud a hold rid0 hrid0
    · simp only [List.mem_singleton] at hnew
      rw [hnew] at hrid0
      simp only [Option.some.injEq] at hrid0
      rw [← hrid0, ← hrowid]
      exact hlt row hrowmem

theorem WF_create (s : DBState) (now : Nat) (tg_id : Int) (username : String)
    (items : List (String × String)) (purpose : String) (comment : Option String)
    (s' : DBState) (rid : Nat) (hwf : WF s)
    (h : create_request_multi s now tg_id username items purpose comment = (s', .ok rid)) :
    WF s' := by
  obtain ⟨hnd1, hnd2, hlt, hfk, hnd3, haud⟩ := hwf
  obtain ⟨hrid, hchk, ts2, hres, hs⟩ := create_ok_inv s now tg_id username items
    purpose comment s' rid h
  subst hs
  have hfkLt : ∀ it ∈ s.request_items, it.request_id < s.nextRequestId := by
    intro it hit
    obtain ⟨r0, hr0, hid0⟩ := hfk it hit
    rw [hid0]
    exact hlt r0 hr0
  unfold WF createCommitted
  dsimp only
  refine ⟨?_, ?_, ?_, ?_, ?_, ?_⟩
  · rw [reserveTokens_map_token_id _ _ _ hres]
    exact hnd1
  · rw [List.map_append, List.nodup_append]
    refine ⟨hnd2, by simp, ?_⟩
    intro x hx hx2
    simp only [List.map_cons, List.map_nil, List.mem_singleton] at hx2
    obtain ⟨q, hq, hqe⟩ := List.mem_map.mp hx
    rw [← hqe] at hx2
    have hqn : q.id = s.nextRequestId := hx2
    exact absurd hqn (Nat.ne_of_lt (hlt q hq))
  · intro r hr
    rcases List.mem_append.mp hr with hold | hnew
    · exact Nat.lt_succ_of_lt (hlt r hold)
    · simp only [List.mem_singleton] at hnew
      rw [hnew]
      exact Nat.lt_succ_self _
  · intro it hit
    rcases List.mem_append.mp hit with hold | hnew
    · obtain ⟨r0, hr0, hid0⟩ := hfk it hold
      exact ⟨r0, List.mem_append_left _ hr0, hid0⟩
    · obtain ⟨p, hp, hpe⟩ := List.mem_map.mp hnew
      refine ⟨newRequestRow s.nextRequestId now tg_id username purpose comment,
        List.mem_append_right _ (by simp), ?_⟩
      rw [← hpe]
      rfl
  · rw [List.map_append, List.nodup_append]
    refine ⟨hnd3, ?_, ?_⟩
    · rw [List.map_map]
      apply List.Nodup.map_on
      · intro x hx y hy hxy
        have h2 : x.2 = y.2 := by
          have := congrArg Prod.snd hxy
          simpa using this
        exact List.inj_on_of_nodup_map (dedupItems_keys_nodup items) hx hy h2
      · exact List.Nodup.of_map _ (dedupItems_keys_nodup items)
    · intro x hx hx2
      obtain ⟨it, hit, hite⟩ := List.mem_map.mp hx
      obtain ⟨it2, hit2, hit2e⟩ := List.mem_map.mp hx2
      obtain ⟨p, hp, hpe⟩ := List.mem_map.mp hit2
      have h1 : x.1 < s.nextRequestId := by
        rw [← hite]
        exact hfkLt it hit
      have h2 : x.1 = s.nextRequestId := by
        rw [← hit2e, ← hpe]
      rw [h2] at h1
      exact absurd h1 (Nat.lt_irrefl _)
  · intro a ha rid0 hrid0
    rcases List.mem_append.mp ha with hold | hnew
    · exact Nat.lt_succ_of_lt (haud a hold rid0 hrid0)
    · simp only [List.mem_singleton] at hnew
      rw [hnew] at hrid0
      simp only [Option.some.injEq] at hrid0
      rw [← hrid0]
      exact Nat.lt_succ_self _

/-! ### Preservation of the safety invariant -/

theorem request_mem_eq_find? (rs : List Request) (hnd : (rs.map (·.id)).Nodup)
    (rid : Nat) (row q : Request)
    (hfind : rs.find? (fun r => decide (r.id = rid)) = Option.some row)
    (hq : q ∈ rs) (hqid : q.id = rid) : q = row := by
  have hrow : row ∈ rs := List.mem_of_find?_eq_some hfind
  have hrowid : row.id = rid := by
    have := List.find?_some hfind
    simpa using this
  exact List.inj_on_of_nodup_map hnd hq hrow (hqid.trans hrowid.symm)

theorem Inv_lifecycleStep (s : DBState) (expected : ReqStatus) (g : Request → Request)
    (newSt : ReqStatus) (want expTok : TokenStatus) (action : String) (actor : Int)
    (request_id : Nat) (s' : DBState) (r' : Request)
    (h : lifecycleStep s expected g want expTok action actor request_id = (s', .ok r'))
    (hg_id : ∀ r, (g r).id = r.id)
    (hg_st : ∀ r, (g r).status = newSt)
    (hexp : NonTerminal expected)
    (hwant : NonTerminal newSt → want = .reserved ∨ want = .issued)
    (hwf : WF s) (hinv : Inv s) :
    Inv s' := by
  obtain ⟨hnd1, hnd2, hlt, hfk, hnd3, haud⟩ := hwf
  obtain ⟨row, hfind, hst, hr, hreq, hitems, hwl, hnext, hlog, hmem, hframe, hids⟩ :=
    lifecycleStep_ok_inv s expected g want expTok action actor request_id s' r'
      h hg_id hnd2 hnd1 hnd3
  have hrowmem : row ∈ s.requests := List.mem_of_find?_eq_some hfind
  have hrowid : row.id = request_id := by
    have := List.find?_some hfind
    simpa using this
  -- the conditional update as a pointwise function on rows
  have hmemreq : ∀ r0 ∈ s'.requests, ∃ q ∈ s.requests,
      r0 = (if q.id = request_id ∧ q.status = expected then g q else q) := by
    intro r0 hr0
    rw [hreq] at hr0
    simp only [sqlUpdateRequestIf, List.mem_map] at hr0
    obtain ⟨q, hq, hqe⟩ := hr0
    exact ⟨q, hq, hqe.symm⟩
  have hGid : ∀ q : Request,
      (if q.id = request_id ∧ q.status = expected then g q else q).id = q.id := by
    intro q
    by_cases hm : q.id = request_id ∧ q.status = expected
    · rw [if_pos hm, hg_id]
    · rw [if_neg hm]
  have hGnt : ∀ q : Request,
      NonTerminal (if q.id = request_id ∧ q.status = expected then g q else q).status →
      NonTerminal q.status := by
    intro q hnt
    by_cases hm : q.id = request_id ∧ q.status = expected
    · rw [hm.2]
      exact hexp
    · rw [if_neg hm] at hnt
      exact hnt
  intro tid
  constructor
  · intro r1 hr1 r2 hr2 hnt1 hnt2 href1 href2
    obtain ⟨q1, hq1, hq1e⟩ := hmemreq r1 hr1
    obtain ⟨q2, hq2, hq2e⟩ := hmemreq r2 hr2
    rw [hitems] at href1 href2
    rw [hq1e, hGid] at href1 ⊢
    rw [hq2e, hGid] at href2 ⊢
    exact (hinv tid).1 q1 hq1 q2 hq2
      (hGnt q1 (hq1e ▸ hnt1)) (hGnt q2 (hq2e ▸ hnt2)) href1 href2
  · intro r0 hr0 hnt href
    obtain ⟨q, hq, hqe⟩ := hmemreq r0 hr0
    rw [hitems] at href
    rw [hqe, hGid] at href
    have hqnt : NonTerminal q.status := hGnt q (hqe ▸ hnt)
    by_cases htid : refsId s.request_items request_id tid
    · -- the token belongs to the very request being transitioned
      have hqid : q.id = request_id := by
        have := (hinv tid).1 q hq row hrowmem hqnt (hst.symm ▸ hexp)
          href (hrowid.symm ▸ htid)
        rw [this, hrowid]
      have hqrow : q = row := request_mem_eq_find? s.requests hnd2 request_id row q hfind hq hqid
      have hm : q.id = request_id ∧ q.status = expected := ⟨hqid, hqrow ▸ hst⟩
      have hr0st : r0.status = newSt := by
        rw [hqe, if_pos hm, hg_st]
      have hntnew : NonTerminal newSt := hr0st ▸ hnt
      rcases hwant hntnew with hw | hw
      · left
        rw [(hmem tid htid).2, hw]
      · right
        rw [(hmem tid htid).2, hw]
    · rw [hframe tid htid]
      exact (hinv tid).2 q hq hqnt href

theorem Inv_create (s : DBState) (now : Nat) (tg_id : Int) (username : String)
    (items : List (String × String)) (purpose : String) (comment : Option String)
    (s' : DBState) (rid : Nat) (hwf : WF s) (hinv : Inv s)
    (h : create_request_multi s now tg_id username items purpose comment = (s', .ok rid)) :
    Inv s' := by
  obtain ⟨hnd1, hnd2, hlt, hfk, hnd3, haud⟩ := hwf
  obtain ⟨hrid, hchk, ts2, hres, hs⟩ := create_ok_inv s now tg_id username items
    purpose comment s' rid h
  subst hs
  have hfkLt : ∀ it ∈ s.request_items, it.request_id < s.nextRequestId := by
    intro it hit
    obtain ⟨r0, hr0, hid0⟩ := hfk it hit
    rw [hid0]
    exact hlt r0 hr0
  have hkmem := reserveTokens_ok_mem (dedupItems items) s.tokens ts2 hnd1
    (dedupItems_keys_nodup items) hres
  have hkframe := reserveTokens_ok_frame (dedupItems items) s.tokens ts2 hres
  -- no non-terminal request of `s` can reference a token that is still available
  have hnoref : ∀ tid ∈ (dedupItems items).map (·.2), ∀ q ∈ s.requests,
      NonTerminal q.status → ¬refsId s.request_items q.id tid := by
    intro tid htid q hq hqnt href
    have hav : tokenStatusOf s.tokens tid = Option.some .available := (hkmem tid htid).1
    rcases (hinv tid).2 q hq hqnt href with hc | hc
    · rw [hav] at hc
      cases hc
    · rw [hav] at hc
      cases hc
  -- membership in the appended item table
  have hrefs_split : ∀ i tid, refsId (createCommitted s now tg_id username items purpose
      comment ts2).request_items i tid ↔
      (refsId s.request_items i tid ∨
        (i = s.nextRequestId ∧ tid ∈ (dedupItems items).map (·.2))) := by
    intro i tid
    unfold createCommitted refsId
    dsimp only
    constructor
    · rintro ⟨it, hit, hid, htid⟩
      rcases List.mem_append.mp hit with hold | hnew
      · exact Or.inl ⟨it, hold, hid, htid⟩
      · obtain ⟨p, hp, hpe⟩ := List.mem_map.mp hnew
        right
        constructor
        · rw [← hid, ← hpe]
        · rw [← htid, ← hpe]
          exact List.mem_map_of_mem _ hp
    · rintro (⟨it, hit, hid, htid⟩ | ⟨hi, htid⟩)
      · exact ⟨it, List.mem_append_left _ hit, hid, htid⟩
      · obtain ⟨p, hp, hpe⟩ := List.mem_map.mp htid
        refine ⟨Item.mk s.nextRequestId p.1 p.2, List.mem_append_right _
          (List.mem_map_of_mem _ hp), ?_, ?_⟩
        · rw [hi]
        · rw [← hpe]
  have hreqmem : ∀ r0, r0 ∈ (createCommitted s now tg_id username items purpose
      comment ts2).requests ↔ (r0 ∈ s.requests ∨
        r0 = newRequestRow s.nextRequestId now tg_id username purpose comment) := by
    intro r0
    unfold createCommitted
    dsimp only
    rw [List.mem_append]
    simp
  have hnewid : (newRequestRow s.nextRequestId now tg_id username purpose comment).id =
      s.nextRequestId := rfl
  have hnewst : (newRequestRow s.nextRequestId now tg_id username purpose comment).status =
      ReqStatus.REQUESTED := rfl
  -- an old request id never reaches the fresh id
  have holdne : ∀ q ∈ s.requests, q.id ≠ s.nextRequestId := by
    intro q hq
    exact Nat.ne_of_lt (hlt q hq)
  have htok : (createCommitted s now tg_id username items purpose comment ts2).tokens = ts2 := rfl
  intro tid
  constructor
  · intro r1 hr1 r2 hr2 hnt1 hnt2 href1 href2
    rw [hreqmem] at hr1 hr2
    rw [hrefs_split] at href1 href2
    rcases hr1 with h1old | h1new
    · rcases hr2 with h2old | h2new
      · -- both pre-existing
        rcases href1 with href1 | ⟨hid1, _⟩
        · rcases href2 with href2 | ⟨hid2, _⟩
          · exact (hinv tid).1 r1 h1old r2 h2old hnt1 hnt2 href1 href2
          · exact absurd hid2 (holdne r2 h2old)
        · exact absurd hid1 (holdne r1 h1old)
      · -- r2 is the new request: its tokens were available, so r1 cannot reference them
        rcases href2 with href2 | ⟨_, htid2⟩
        · obtain ⟨it, hit, hid, _⟩ := href2
          rw [h2new, hnewid] at hid
          exact absurd hid (Nat.ne_of_lt (hfkLt it hit))
        · rcases href1 with href1 | ⟨hid1, _⟩
          · exact absurd href1 (hnoref tid htid2 r1 h1old hnt1)
          · exact absurd hid1 (holdne r1 h1old)
    · rcases hr2 with h2old | h2new
      · rcases href1 with href1 | ⟨_, htid1⟩
        · obtain ⟨it, hit, hid, _⟩ := href1
          rw [h1new, hnewid] at hid
          exact absurd hid (Nat.ne_of_lt (hfkLt it hit))
        · rcases href2 with href2 | ⟨hid2, _⟩
          · exact absurd href2 (hnoref tid htid1 r2 h2old hnt2)
          · exact absurd hid2 (holdne r2 h2old)
      · rw [h1new, h2new]
  · intro r0 hr0 hnt href
    rw [hreqmem] at hr0
    rw [hrefs_split] at href
    rw [htok]
    rcases hr0 with hold | hnew
    · rcases href with href | ⟨hid, _⟩
      · by_cases htid : tid ∈ (dedupItems items).map (·.2)
        · exact absurd href (hnoref tid htid r0 hold hnt)
        · rw [hkframe tid htid]
          exact (hinv tid).2 r0 hold hnt href
      · exact absurd hid (holdne r0 hold)
    · rcases href with href | ⟨_, htid⟩
      · obtain ⟨it, hit, hid, _⟩ := href
        rw [hnew, hnewid] at hid
        exact absurd hid (Nat.ne_of_lt (hfkLt it hit))
      · left
        exact (hkmem tid htid).2

theorem Inv_cleanup (s : DBState) (now : Nat) (days : Nat) (hinv : Inv s) :
    Inv (cleanup_old_data s now days).1 := by
  unfold cleanup_old_data
  dsimp only
  split
  · exact hinv
  · intro tid
    constructor
    · intro r1 hr1 r2 hr2 hnt1 hnt2 href1 href2
      simp only [List.mem_filter] at hr1 hr2
      obtain ⟨it1, hit1, hid1, htid1⟩ := href1
      obtain ⟨it2, hit2, hid2, htid2⟩ := href2
      simp only [List.mem_filter] at hit1 hit2
      exact (hinv tid).1 r1 hr1.1 r2 hr2.1 hnt1 hnt2
        ⟨it1, hit1.1, hid1, htid1⟩ ⟨it2, hit2.1, hid2, htid2⟩
    · intro r0 hr0 hnt href
      simp only [List.mem_filter] at hr0
      obtain ⟨it, hit, hid, htid⟩ := href
      simp only [List.mem_filter] at hit
      exact (hinv tid).2 r0 hr0.1 hnt ⟨it, hit.1, hid, htid⟩

/-! ### Assorted helper lemmas for the claim theorems -/

theorem find?_requests_append_new (rs : List Request) (req : Request)
    (h : ∀ r ∈ rs, r.id ≠ req.id) :
    (rs ++ [req]).find? (fun r => decide (r.id = req.id)) = Option.some req := by
  rw [List.find?_append]
  have hnone : rs.find? (fun r => decide (r.id = req.id)) = Option.none := by
    rw [List.find?_eq_none]
    intro r hr
    simpa using h r hr
  rw [hnone]
  simp

theorem filter_items_createCommitted (s : DBState) (now : Nat) (tg_id : Int)
    (username : String) (items : List (String × String)) (purpose : String)
    (comment : Option String) (ts2 : List Token)
    (hfkLt : ∀ it ∈ s.request_items, it.request_id < s.nextRequestId) :
    (createCommitted s now tg_id username items purpose comment ts2).request_items.filter
        (fun it => decide (it.request_id = s.nextRequestId)) =
      (dedupItems items).map (fun p => Item.mk s.nextRequestId p.1 p.2) := by
  unfold createCommitted
  dsimp only
  rw [List.filter_append]
  have hold : s.request_items.filter (fun it => decide (it.request_id = s.nextRequestId)) = [] := by
    rw [List.filter_eq_nil_iff]
    intro it hit
    simp only [decide_eq_true_eq]
    exact Nat.ne_of_lt (hfkLt it hit)
  have hnew : ((dedupItems items).map (fun p => Item.mk s.nextRequestId p.1 p.2)).filter
      (fun it => decide (it.request_id = s.nextRequestId)) =
      (dedupItems items).map (fun p => Item.mk s.nextRequestId p.1 p.2) := by
    rw [List.filter_eq_self]
    intro it hit
    obtain ⟨p, hp, hpe⟩ := List.mem_map.mp hit
    rw [← hpe]
    simp
  rw [hold, hnew, List.nil_append]

theorem refs_createCommitted (s : DBState) (now : Nat) (tg_id : Int)
    (username : String) (items : List (String × String)) (purpose : String)
    (comment : Option String) (ts2 : List Token) (i : Nat) (tid : String)
    (hfkLt : ∀ it ∈ s.request_items, it.request_id < s.nextRequestId) :
    refsId (createCommitted s now tg_id username items purpose comment ts2).request_items
        i tid ↔
      (refsId s.request_items i tid ∨
        (i = s.nextRequestId ∧ tid ∈ (dedupItems items).map (·.2))) := by
  unfold createCommitted refsId
  dsimp only
  constructor
  · rintro ⟨it, hit, hid, htid⟩
    rcases List.mem_append.mp hit with hold | hnew
    · exact Or.inl ⟨it, hold, hid, htid⟩
    · obtain ⟨p, hp, hpe⟩ := List.mem_map.mp hnew
      right
      constructor
      · rw [← hid, ← hpe]
      · rw [← htid, ← hpe]
        exact List.mem_map_of_mem _ hp
  · rintro (⟨it, hit, hid, htid⟩ | ⟨hi, htid⟩)
    · exact ⟨it, List.mem_append_left _ hit, hid, htid⟩
    · obtain ⟨p, hp, hpe⟩ := List.mem_map.mp htid
      refine ⟨Item.mk s.nextRequestId p.1 p.2, List.mem_append_right _
        (List.mem_map_of_mem _ hp), ?_, ?_⟩
      · rw [hi]
      · rw [← hpe]

theorem auditFor_append_hit (s : DBState) (l : List AuditEntry) (e : AuditEntry)
    (rid : Nat) (hlog : l = s.audit_log ++ [e]) (he : e.request_id = Option.some rid) :
    l.filter (fun a => decide (a.request_id = Option.some rid)) =
      s.audit_log.filter (fun a => decide (a.request_id = Option.some rid)) ++ [e] := by
  rw [hlog, List.filter_append]
  congr 1
  simp [he]

theorem auditFor_WF_fresh (s : DBState) (hwf : WF s) :
    s.audit_log.filter (fun a => decide (a.request_id = Option.some s.nextRequestId)) = [] := by
  rw [List.filter_eq_nil_iff]
  intro a ha
  simp only [decide_eq_true_eq]
  intro hc
  exact absurd rfl (Nat.ne_of_lt (hwf.2.2.2.2.2 a ha s.nextRequestId hc))

theorem statusOf_releaseAll (ts : List Token) (tids : List String) (tid : String) :
    tokenStatusOf (ts.map (fun t =>
        if t.token_id ∈ tids then { t with status := TokenStatus.available } else t)) tid =
      (tokenStatusOf ts tid).map
        (fun st => if tid ∈ tids then TokenStatus.available else st) := by
  induction ts with
  | nil => rfl
  | cons t rest ih =>
    simp only [tokenStatusOf, List.map_cons] at *
    by_cases h : t.token_id = tid
    · by_cases hm : t.token_id ∈ tids
      · rw [if_pos hm,
          List.find?_cons_of_pos _ (by simp [h]),
          List.find?_cons_of_pos _ (by simp [h])]
        simp [h ▸ hm]
      · rw [if_neg hm,
          List.find?_cons_of_pos _ (by simp [h]),
          List.find?_cons_of_pos _ (by simp [h])]
        simp [h ▸ hm]
    · by_cases hm : t.token_id ∈ tids
      · rw [if_pos hm,
          List.find?_cons_of_neg _ (by simp [h]),
          List.find?_cons_of_neg _ (by simp [h])]
        exact ih
      · rw [if_neg hm,
          List.find?_cons_of_neg _ (by simp [h]),
          List.find?_cons_of_neg _ (by simp [h])]
        exact ih

theorem lifecycleStep_tokenErr (s : DBState) (expected : ReqStatus)
    (g : Request → Request) (want expTok : TokenStatus) (action : String)
    (actor : Int) (request_id : Nat) (row : Request) (e : DbErr)
    (hndreq : (s.requests.map (·.id)).Nodup)
    (hfind : s.requests.find? (fun r => decide (r.id = request_id)) = Option.some row)
    (hst : row.status = expected)
    (hupd : updateItemTokens want expTok (request_items_tx s request_id) s.tokens =
      .error e) :
    lifecycleStep s expected g want expTok action actor request_id = (s, .err e) := by
  unfold lifecycleStep
  rw [hfind]
  dsimp only
  rw [if_neg (not_not_intro hst)]
  have hcnt : (sqlUpdateRequestIf s.requests g request_id expected).2 = 1 := by
    rw [sqlUpdateRequestIf_rowcount _ _ _ _ hndreq, hfind]
    simp [hst]
  rw [if_neg (by simp [hcnt])]
  rw [hupd]

/-! ### Claim theorems -/

/-- C10: `create_request_multi` invoked with an empty item list does not
fail: it commits a request row in `REQUESTED` status, creates zero
request items, changes no token, appends exactly one `REQUESTED` audit
entry and returns the fresh request id.  No precondition rejects the
empty list. -/
theorem C10_create_empty_items (s : DBState) (now : Nat) (tg_id : Int)
    (username : String) (purpose : String) (comment : Option String) :
    create_request_multi s now tg_id username [] purpose comment =
      ({ s with
          requests := s.requests ++ [newRequestRow s.nextRequestId now tg_id username purpose comment],
          audit_log := s.audit_log ++
            [{ request_id := Option.some s.nextRequestId, actor_tg_id := tg_id,
               action := "REQUESTED" }],
          nextRequestId := s.nextRequestId + 1 },
       .ok s.nextRequestId) := by
  unfold create_request_multi
  dsimp only
  have hdedup : dedupItems [] = [] := rfl
  rw [hdedup]
  dsimp only [checkAvailable, reserveTokens]
  simp

/-- C1: `create_request_multi` is all-or-nothing.  On any error the
transaction rolls back and the returned state is exactly the input state
(no token status, request row, item row or audit row changes).  On
success every distinct token of the item list transitions from
`available` to `reserved`, all other tokens keep their status, and the
request row, its item rows and one `REQUESTED` audit entry are committed
together with the reservation; a request never holds a strict subset of
its tokens. -/
theorem C1_create_all_or_nothing (s : DBState) (now : Nat) (tg_id : Int)
    (username : String) (items : List (String × String)) (purpose : String)
    (comment : Option String) (hwf : WF s) :
    (∀ s' e, create_request_multi s now tg_id username items purpose comment =
      (s', .error e) → s' = s) ∧
    (∀ s' rid, create_request_multi s now tg_id username items purpose comment =
      (s', .ok rid) →
      rid = s.nextRequestId ∧
      (∀ tid ∈ items.map (·.2),
        tokenStatusOf s.tokens tid = Option.some .available ∧
        tokenStatusOf s'.tokens tid = Option.some .reserved) ∧
      (∀ tid, tid ∉ items.map (·.2) →
        tokenStatusOf s'.tokens tid = tokenStatusOf s.tokens tid) ∧
      s'.requests = s.requests ++
        [newRequestRow s.nextRequestId now tg_id username purpose comment] ∧
      s'.request_items = s.request_items ++
        (dedupItems items).map (fun p => Item.mk s.nextRequestId p.1 p.2) ∧
      s'.audit_log = s.audit_log ++
        [{ request_id := Option.some s.nextRequestId, actor_tg_id := tg_id,
           action := "REQUESTED" }] ∧
      s'.waitlist = s.waitlist ∧
      s'.nextRequestId = s.nextRequestId + 1) := by
  constructor
  · intro s' e h
    exact create_err_state s now tg_id username items purpose comment s' e h
  · intro s' rid h
    obtain ⟨hrid, hchk, ts2, hres, hs⟩ :=
      create_ok_inv s now tg_id username items purpose comment s' rid h
    subst hs
    have hkmem := reserveTokens_ok_mem (dedupItems items) s.tokens ts2 hwf.1
      (dedupItems_keys_nodup items) hres
    have hkframe := reserveTokens_ok_frame (dedupItems items) s.tokens ts2 hres
    refine ⟨hrid, ?_, ?_, rfl, rfl, rfl, rfl, rfl⟩
    · intro tid htid
      exact hkmem tid ((mem_dedupItems_keys items tid).mpr htid)
    · intro tid htid
      exact hkframe tid (fun hc => htid ((mem_dedupItems_keys items tid).mp hc))

/-- C9: duplicate-token deduplication in `create_request_multi`.  When
the same token id occurs several times in the input list, the committed
request has exactly one item row for that token, and that row's company
is the company of the LAST occurrence of the token id in the input. -/
theorem C9_dedup_last_company_wins (s : DBState) (now : Nat) (tg_id : Int)
    (username : String) (items : List (String × String)) (purpose : String)
    (comment : Option String) (s' : DBState) (rid : Nat) (hwf : WF s)
    (h : create_request_multi s now tg_id username items purpose comment = (s', .ok rid)) :
    ∀ tid ∈ items.map (·.2),
      (s'.request_items.filter (fun it => decide (it.request_id = rid))).countP
        (fun it => decide (it.token_id = tid)) = 1 ∧
      ((s'.request_items.filter (fun it => decide (it.request_id = rid))).find?
        (fun it => decide (it.token_id = tid))).map (·.company) = lastCompany items tid := by
  obtain ⟨hrid, hchk, ts2, hres, hs⟩ :=
    create_ok_inv s now tg_id username items purpose comment s' rid h
  subst hs
  subst hrid
  have hfkLt : ∀ it ∈ s.request_items, it.request_id < s.nextRequestId := by
    intro it hit
    obtain ⟨r0, hr0, hid0⟩ := hwf.2.2.2.1 it hit
    rw [hid0]
    exact hwf.2.2.1 r0 hr0
  rw [filter_items_createCommitted s now tg_id username items purpose comment ts2 hfkLt]
  intro tid htid
  constructor
  · rw [List.countP_map]
    have hpred : ((fun it : Item => decide (it.token_id = tid)) ∘
        (fun p : String × String => Item.mk s.nextRequestId p.1 p.2)) =
        (fun p : String × String => decide (p.2 = tid)) := rfl
    rw [hpred, dedupItems_countP, if_pos htid]
  · rw [List.find?_map]
    have hpred : ((fun it : Item => decide (it.token_id = tid)) ∘
        (fun p : String × String => Item.mk s.nextRequestId p.1 p.2)) =
        (fun p : String × String => decide (p.2 = tid)) := rfl
    rw [hpred, find?_dedupItems]
    cases hlc : lastCompany items tid with
    | none =>
      -- impossible: the token occurs in the list
      exfalso
      unfold lastCompany at hlc
      rw [Option.map_eq_none'] at hlc
      rw [List.find?_eq_none] at hlc
      obtain ⟨p, hp, hpe⟩ := List.mem_map.mp htid
      exact absurd (by simp [hpe]) (hlc p (List.mem_reverse.mpr hp))
    | some c => rfl

theorem statusOf_set_token_status_other (ts : List Token) (tid : String)
    (st : TokenStatus) (tid2 : String) (hne : tid2 ≠ tid) :
    tokenStatusOf (set_token_status ts tid st).1 tid2 = tokenStatusOf ts tid2 := by
  induction ts with
  | nil => rfl
  | cons t rest ih =>
    simp only [set_token_status, tokenStatusOf, List.map_cons] at *
    by_cases h : t.token_id = tid2
    · rw [if_neg (fun hc => hne (h.symm.trans hc)),
        List.find?_cons_of_pos _ (by simp [h]),
        List.find?_cons_of_pos _ (by simp [h])]
    · by_cases hm : t.token_id = tid
      · rw [if_pos hm,
          List.find?_cons_of_neg _ (by simp [h]),
          List.find?_cons_of_neg _ (by simp [h])]
        exact ih
      · rw [if_neg hm,
          List.find?_cons_of_neg _ (by simp [h]),
          List.find?_cons_of_neg _ (by simp [h])]
        exact ih

/-- C3 counterexample: the standalone status-update primitive
`Database.set_token_status` is NOT conditional.  On a catalog whose only
token `T1` is `issued`, the claimed compare-and-swap guarded by the
expected prior state `available` (the reservation guard of the spec's
`setStatusIf`) would refuse to transition and report zero rows, yet
`set_token_status` overwrites the status anyway and returns true; it
even returns true when the written status equals the old one and no row
transitioned at all. -/
theorem C3_counterexample :
    (sqlUpdateTokenIf [Token.mk "T1" "d" .issued] .reserved "T1" .available).1 =
        [Token.mk "T1" "d" .issued] ∧
    (sqlUpdateTokenIf [Token.mk "T1" "d" .issued] .reserved "T1" .available).2 = 0 ∧
    (set_token_status [Token.mk "T1" "d" .issued] "T1" .reserved).1 =
        [Token.mk "T1" "d" .reserved] ∧
    (set_token_status [Token.mk "T1" "d" .issued] "T1" .reserved).2 = true ∧
    (set_token_status [Token.mk "T1" "d" .issued] "T1" .issued).1 =
        [Token.mk "T1" "d" .issued] ∧
    (set_token_status [Token.mk "T1" "d" .issued] "T1" .issued).2 = true :=
  ⟨by decide, by decide, by decide, by decide, by decide, by decide⟩

/-- C3 amended: the code has two token status-update primitives.  The
inline conditional update
`UPDATE tokens SET status=? WHERE token_id=? AND status=?` used by the
transactional methods is a true compare-and-swap: it changes the token's
status to `next` exactly when the current status equals `expected`,
leaves every other token alone, and its rowcount is 1 exactly when one
row transitioned (never more, on a catalog with unique token ids).  The
standalone method `Database.set_token_status`, by contrast, is
unconditional: it overwrites the status of an existing token whatever
its prior status and returns true exactly when the token exists. -/
theorem C3_status_update_primitives (ts : List Token) (tid : String)
    (st next expected : TokenStatus) (hnd : (ts.map (·.token_id)).Nodup) :
    ((sqlUpdateTokenIf ts next tid expected).2 = 1 ↔
      tokenStatusOf ts tid = Option.some expected) ∧
    (sqlUpdateTokenIf ts next tid expected).2 ≤ 1 ∧
    tokenStatusOf (sqlUpdateTokenIf ts next tid expected).1 tid =
      (tokenStatusOf ts tid).map (fun st0 => if st0 = expected then next else st0) ∧
    (∀ tid2, tid2 ≠ tid →
      tokenStatusOf (sqlUpdateTokenIf ts next tid expected).1 tid2 =
        tokenStatusOf ts tid2) ∧
    ((set_token_status ts tid st).2 = true ↔ ∃ t ∈ ts, t.token_id = tid) ∧
    tokenStatusOf (set_token_status ts tid st).1 tid =
      (tokenStatusOf ts tid).map (fun _ => st) ∧
    (∀ tid2, tid2 ≠ tid →
      tokenStatusOf (set_token_status ts tid st).1 tid2 = tokenStatusOf ts tid2) := by
  refine ⟨?_, ?_, statusOf_sqlUpdate_self ts next tid expected,
    fun tid2 hne => statusOf_sqlUpdate_other ts next tid expected tid2 hne,
    set_token_status_snd ts tid st,
    statusOf_set_token_status ts tid st,
    fun tid2 hne => statusOf_set_token_status_other ts tid st tid2 hne⟩
  · rw [sqlUpdate_rowcount _ _ _ _ hnd]
    by_cases h : tokenStatusOf ts tid = Option.some expected
    · simp [h]
    · simp [h]
  · rw [sqlUpdate_rowcount _ _ _ _ hnd]
    by_cases h : tokenStatusOf ts tid = Option.some expected
    · simp [h]
    · simp [h]

/-- C7: `cleanup_old_data` deletes exactly the terminal
(`RETURNED`/`REJECTED`) requests older than the threshold, together with
their item rows and audit rows, and returns the number of requests
removed.  It never touches a `REQUESTED`/`APPROVED`/`ISSUED` request of
any age, never changes any token, and leaves the waitlist and the id
counter alone. -/
theorem C7_purge_terminal_only (s : DBState) (now days : Nat) (hwf : WF s) :
    (cleanup_old_data s now days).2 =
      (s.requests.filter (isOldTerminal now days)).length ∧
    (cleanup_old_data s now days).1.requests =
      s.requests.filter (fun r => !isOldTerminal now days r) ∧
    (cleanup_old_data s now days).1.tokens = s.tokens ∧
    (cleanup_old_data s now days).1.waitlist = s.waitlist ∧
    (cleanup_old_data s now days).1.nextRequestId = s.nextRequestId ∧
    (∀ r ∈ s.requests, NonTerminal r.status →
      r ∈ (cleanup_old_data s now days).1.requests) ∧
    (∀ it, it ∈ (cleanup_old_data s now days).1.request_items ↔
      (it ∈ s.request_items ∧
        ¬∃ r ∈ s.requests, isOldTerminal now days r = true ∧ it.request_id = r.id)) ∧
    (∀ a, a ∈ (cleanup_old_data s now days).1.audit_log ↔
      (a ∈ s.audit_log ∧
        ¬∃ r ∈ s.requests, isOldTerminal now days r = true ∧
          a.request_id = Option.some r.id)) := by
  have hnt : ∀ r : Request, NonTerminal r.status → isOldTerminal now days r = false := by
    intro r hr
    unfold isOldTerminal
    simp only [decide_eq_false_iff_not]
    rintro ⟨hst | hst, _⟩ <;> rcases hr with h | h | h <;> rw [hst] at h <;> cases h
  have hmemids : ∀ n : Nat,
      (n ∈ ((s.requests.filter (isOldTerminal now days)).map (·.id)) ↔
        ∃ r ∈ s.requests, isOldTerminal now days r = true ∧ n = r.id) := by
    intro n
    rw [List.mem_map]
    constructor
    · rintro ⟨q, hq, hqe⟩
      rw [List.mem_filter] at hq
      exact ⟨q, hq.1, hq.2, hqe.symm⟩
    · rintro ⟨r, hr, hro, hrn⟩
      exact ⟨r, List.mem_filter.mpr ⟨hr, hro⟩, hrn.symm⟩
  unfold cleanup_old_data
  dsimp only
  split
  · rename_i hempty
    have hnil : (s.requests.filter (isOldTerminal now days)).map (·.id) = [] := by
      rwa [← List.isEmpty_iff]
    have hfnil : s.requests.filter (isOldTerminal now days) = [] :=
      List.map_eq_nil_iff.mp hnil
    have hnone : ∀ r ∈ s.requests, isOldTerminal now days r = false := by
      intro r hr
      by_contra hc
      have : r ∈ s.requests.filter (isOldTerminal now days) :=
        List.mem_filter.mpr ⟨hr, by revert hc; cases isOldTerminal now days r <;> simp⟩
      rw [hfnil] at this
      cases this
    refine ⟨by rw [hfnil]; rfl, ?_, rfl, rfl, rfl, ?_, ?_, ?_⟩
    · rw [List.filter_eq_self.mpr]
      intro r hr
      rw [hnone r hr]
      rfl
    · intro r hr _
      exact hr
    · intro it
      constructor
      · intro hit
        refine ⟨hit, ?_⟩
        rintro ⟨r, hr, hro, _⟩
        rw [hnone r hr] at hro
        cases hro
      · intro hit
        exact hit.1
    · intro a
      constructor
      · intro ha
        refine ⟨ha, ?_⟩
        rintro ⟨r, hr, hro, _⟩
        rw [hnone r hr] at hro
        cases hro
      · intro ha
        exact ha.1
  · refine ⟨by rw [List.length_map], ?_, rfl, rfl, rfl, ?_, ?_, ?_⟩
    · apply List.filter_congr
      intro r hr
      simp only [decide_not]
      congr 1
      rw [Bool.eq_iff_iff]
      simp only [decide_eq_true_eq]
      constructor
      · intro hmem
        obtain ⟨q, hq, hqo, hqn⟩ := (hmemids r.id).mp hmem
        have : q = r := List.inj_on_of_nodup_map hwf.2.1 hq hr hqn.symm
        rw [← this]
        exact hqo
      · intro hro
        exact (hmemids r.id).mpr ⟨r, hr, hro, rfl⟩
    · intro r hr hrnt
      rw [List.mem_filter]
      refine ⟨hr, ?_⟩
      simp only [decide_eq_true_eq]
      intro hmem
      obtain ⟨q, hq, hqo, hqn⟩ := (hmemids r.id).mp hmem
      have : q = r := List.inj_on_of_nodup_map hwf.2.1 hq hr hqn.symm
      rw [this] at hqo
      rw [hnt r hrnt] at hqo
      exact Bool.noConfusion hqo
    · intro it
      rw [List.mem_filter]
      simp only [decide_eq_true_eq]
      rw [hmemids it.request_id]
    · intro a
      rw [List.mem_filter]
      constructor
      · rintro ⟨h1, h2⟩
        refine ⟨h1, ?_⟩
        rintro ⟨r, hr, hro, hrn⟩
        rw [hrn] at h2
        simp only [decide_eq_true_eq] at h2
        exact absurd ((hmemids r.id).mpr ⟨r, hr, hro, rfl⟩) h2
      · rintro ⟨h1, h2⟩
        refine ⟨h1, ?_⟩
        cases ha : a.request_id with
        | none => simp
        | some rid0 =>
          simp only [decide_eq_true_eq]
          intro hmem
          obtain ⟨r, hr, hro, hrn⟩ := (hmemids rid0).mp hmem
          exact h2 ⟨r, hr, hro, by rw [ha, hrn]⟩

/-- C8: `delete_request_by_admin` on an `ISSUED` request reports true,
releases every item's token to `available` regardless of the token's
current status, and afterwards the request is gone: `get_request`
returns none and its item rows and audit rows are removed. -/
theorem C8_admin_delete (s : DBState) (rid : Nat) (actor : Int) (row : Request)
    (hfind : get_request s rid = Option.some row) (hst : row.status = .ISSUED) :
    (delete_request_by_admin s rid actor).2 = true ∧
    (∀ tid, refsId s.request_items rid tid →
      tokenStatusOf (delete_request_by_admin s rid actor).1.tokens tid =
        (tokenStatusOf s.tokens tid).map (fun _ => TokenStatus.available)) ∧
    get_request (delete_request_by_admin s rid actor).1 rid = Option.none ∧
    (delete_request_by_admin s rid actor).1.request_items.filter
      (fun it => decide (it.request_id = rid)) = [] ∧
    auditFor (delete_request_by_admin s rid actor).1 rid = [] := by
  unfold get_request at hfind
  unfold delete_request_by_admin get_request auditFor
  rw [hfind]
  dsimp only
  refine ⟨rfl, ?_, ?_, ?_, ?_⟩
  · intro tid href
    rw [statusOf_releaseAll]
    have hmem : tid ∈ (s.request_items.filter
        (fun it => decide (it.request_id = rid))).map (·.token_id) := by
      obtain ⟨it, hit, hid, htid⟩ := href
      rw [List.mem_map]
      exact ⟨it, List.mem_filter.mpr ⟨hit, by simpa using hid⟩, htid⟩
    cases hts : tokenStatusOf s.tokens tid with
    | none => rfl
    | some st0 => simp [hmem]
  · rw [List.find?_eq_none]
    intro r hr
    rw [List.mem_filter] at hr
    simpa using hr.2
  · rw [List.filter_filter]
    rw [List.filter_eq_nil_iff]
    intro it _
    simp
  · rw [List.filter_append, List.filter_filter]
    have h1 : (s.audit_log.filter (fun a =>
        decide (a.request_id = Option.some rid) &&
        decide (a.request_id ≠ Option.some rid))) = [] := by
      rw [List.filter_eq_nil_iff]
      intro a _
      simp
    have h2 : (([{ request_id := Option.none, actor_tg_id := actor, action := "ADMIN_DELETE" }] : List AuditEntry).filter
        (fun a => decide (a.request_id = Option.some rid))) = [] := by
      simp
    rw [h1, h2]
    rfl

/-- C2: every operation of the core preserves the safety invariant: for
every token, at most one request in a non-terminal status
(`REQUESTED`/`APPROVED`/`ISSUED`) has an item referencing it, and such a
token's status is `reserved` or `issued`, never `available`.  The five
operations are `create_request_multi`, `director_decide`,
`officer_issue`, `officer_return` and `cleanup_old_data`; on every
non-ok outcome the embedded transaction returns the input state
unchanged, so only committed outcomes are stated. -/
theorem C2_invariant_preserved :
    (∀ s now tg u items p c s' rid, WF s → Inv s →
      create_request_multi s now tg u items p c = (s', .ok rid) → Inv s') ∧
    (∀ s now rid d ap s' r, WF s → Inv s →
      director_decide s now rid d ap = (s', .ok r) → Inv s') ∧
    (∀ s now rid o s' r, WF s → Inv s →
      officer_issue s now rid o = (s', .ok r) → Inv s') ∧
    (∀ s now rid o s' r, WF s → Inv s →
      officer_return s now rid o = (s', .ok r) → Inv s') ∧
    (∀ s now days, WF s → Inv s → Inv (cleanup_old_data s now days).1) := by
  refine ⟨?_, ?_, ?_, ?_, ?_⟩
  · intro s now tg u items p c s' rid hwf hinv h
    exact Inv_create s now tg u items p c s' rid hwf hinv h
  · intro s now rid d ap s' r hwf hinv h
    rw [director_decide_eq_step] at h
    refine Inv_lifecycleStep s .REQUESTED _
      (if ap then ReqStatus.APPROVED else ReqStatus.REJECTED) _ _ _ d rid s' r
      h (fun r0 => rfl) (fun r0 => rfl) (Or.inl rfl) ?_ hwf hinv
    intro hnt
    cases ap
    · exfalso
      rcases hnt with h0 | h0 | h0 <;> cases h0
    · exact Or.inl rfl
  · intro s now rid o s' r hwf hinv h
    rw [officer_issue_eq_step] at h
    exact Inv_lifecycleStep s .APPROVED _ ReqStatus.ISSUED _ _ _ o rid s' r
      h (fun r0 => rfl) (fun r0 => rfl) (Or.inr (Or.inl rfl))
      (fun _ => Or.inr rfl) hwf hinv
  · intro s now rid o s' r hwf hinv h
    rw [officer_return_eq_step] at h
    refine Inv_lifecycleStep s .ISSUED _ ReqStatus.RETURNED _ _ _ o rid s' r
      h (fun r0 => rfl) (fun r0 => rfl) (Or.inr (Or.inr rfl)) ?_ hwf hinv
    intro hnt
    exfalso
    rcases hnt with h0 | h0 | h0 <;> cases h0
  · intro s now days hwf hinv
    exact Inv_cleanup s now days hinv

/-- C4: after a successful `director_decide(approve=true)`, a second
`director_decide` on the same request — with any actor and either
verdict — fails with `INVALID_STATUS` and returns the state completely
unchanged (so neither the request's status, nor any token, nor the audit
log moves); and a decision can only ever succeed on a request whose
current status is `REQUESTED`. -/
theorem C4_second_decide_fails (s : DBState) (now1 now2 : Nat) (rid : Nat)
    (d1 d2 : Int) (ap2 : Bool) (hwf : WF s) :
    (∀ s1 r1, director_decide s now1 rid d1 true = (s1, .ok r1) →
      director_decide s1 now2 rid d2 ap2 = (s1, .err .invalidStatus)) ∧
    (∀ ap s' r', director_decide s now1 rid d1 ap = (s', .ok r') →
      ∃ row, get_request s rid = Option.some row ∧ row.status = .REQUESTED) := by
  constructor
  · intro s1 r1 h
    rw [director_decide_eq_step] at h
    obtain ⟨row, hfind, hst, hr, hreq, hitems, hwl, hnext, hlog, hmem, hframe, hids⟩ :=
      lifecycleStep_ok_inv s .REQUESTED _ _ _ _ d1 rid s1 r1
        h (fun r0 => rfl) hwf.2.1 hwf.1 hwf.2.2.2.2.1
    have hfind1 : s1.requests.find? (fun r => decide (r.id = rid)) =
        Option.some r1 := by
      rw [hreq]
      rw [find?_sqlUpdateRequestIf_self]
      · rw [hfind, hr]
        simp [hst]
      · exact fun r0 => rfl
    have hr1st : r1.status = .APPROVED := by
      rw [hr]
      rfl
    rw [director_decide_eq_step]
    exact lifecycleStep_invalid s1 .REQUESTED _ _ _ _ d2 rid r1 hfind1
      (by rw [hr1st]; intro hc; cases hc)
  · intro ap s' r' h
    rw [director_decide_eq_step] at h
    obtain ⟨row, hfind, hst, _⟩ :=
      lifecycleStep_ok_inv s .REQUESTED _ _ _ _ d1 rid s' r'
        h (fun r0 => rfl) hwf.2.1 hwf.1 hwf.2.2.2.2.1
    exact ⟨row, hfind, hst⟩

/-- C6: rejection path.  On a `REQUESTED` request whose single item holds
token `t1`: if `t1` is `reserved`, `director_decide(approve=false)`
commits the request as `REJECTED` and returns `t1` to `available`, and a
waitlist entry for `t1` registered before the decision is returned by
`pop_waiters_for_available_tokens([t1])` exactly once, is removed from
the waitlist, and a second pop returns nothing; if `t1` is NOT
`reserved`, the decision fails with `TOKEN_STATUS_MISMATCH(t1)` and the
state is unchanged. -/
theorem C6_rejection_path (s : DBState) (now : Nat) (rid : Nat) (d : Int)
    (row : Request) (comp t1 : String) (w : WaitEntry) (hwf : WF s)
    (hfind : get_request s rid = Option.some row) (hst : row.status = .REQUESTED)
    (hitems : s.request_items.filter (fun it => decide (it.request_id = rid)) =
      [Item.mk rid comp t1])
    (hw : w.token_id = t1) (hwcount : s.waitlist.count w = 1) :
    (tokenStatusOf s.tokens t1 = Option.some .reserved →
      ∃ s' r', director_decide s now rid d false = (s', .ok r') ∧
        r'.status = .REJECTED ∧
        tokenStatusOf s'.tokens t1 = Option.some .available ∧
        s'.waitlist = s.waitlist ∧
        (pop_waiters_for_available_tokens s' [t1]).2.count w = 1 ∧
        w ∉ (pop_waiters_for_available_tokens s' [t1]).1.waitlist ∧
        (pop_waiters_for_available_tokens
          (pop_waiters_for_available_tokens s' [t1]).1 [t1]).2 = []) ∧
    (∀ st, st ≠ TokenStatus.reserved → tokenStatusOf s.tokens t1 = Option.some st →
      director_decide s now rid d false = (s, .err (.tokenStatusMismatch t1))) := by
  unfold get_request at hfind
  have hrefs : ∀ tid, refsId s.request_items rid tid → tid = t1 := by
    intro tid href
    obtain ⟨it, hit, hid, htid⟩ := href
    have : it ∈ s.request_items.filter (fun it => decide (it.request_id = rid)) :=
      List.mem_filter.mpr ⟨hit, by simpa using hid⟩
    rw [hitems] at this
    simp only [List.mem_singleton] at this
    rw [← htid, this]
  have hrefs1 : refsId s.request_items rid t1 := by
    have hmem : Item.mk rid comp t1 ∈ s.request_items := by
      have : Item.mk rid comp t1 ∈
          s.request_items.filter (fun it => decide (it.request_id = rid)) := by
        rw [hitems]
        simp
      exact (List.mem_filter.mp this).1
    exact ⟨Item.mk rid comp t1, hmem, rfl, rfl⟩
  constructor
  · intro hres
    obtain ⟨s', hstep⟩ := lifecycleStep_success s .REQUESTED
      (fun r => { r with
        status := if false then ReqStatus.APPROVED else ReqStatus.REJECTED,
        approved_by := Option.some d, approved_at := Option.some now })
      (if false then TokenStatus.reserved else TokenStatus.available) .reserved
      (statusName (if false then ReqStatus.APPROVED else ReqStatus.REJECTED)) d rid row
      (fun r0 => rfl) hwf.2.1 hwf.1 hwf.2.2.2.2.1 hfind hst
      (by
        intro tid href
        rw [hrefs tid href]
        exact hres)
    obtain ⟨row2, hfind2, hst2, hr2, hreq2, hitems2, hwl2, hnext2, hlog2, hmem2,
      hframe2, hids2⟩ := lifecycleStep_ok_inv s .REQUESTED _ _ _ _ d rid s' _
        hstep (fun r0 => rfl) hwf.2.1 hwf.1 hwf.2.2.2.2.1
    have havail : tokenStatusOf s'.tokens t1 = Option.some .available :=
      (hmem2 t1 hrefs1).2
    refine ⟨s', _, by rw [director_decide_eq_step]; exact hstep, rfl, havail, hwl2,
      ?_, ?_, ?_⟩
    · unfold pop_waiters_for_available_tokens
      dsimp only
      rw [List.count_filter (by simp [hw, havail])]
      rw [hwl2]
      exact hwcount
    · unfold pop_waiters_for_available_tokens
      dsimp only
      intro hc
      rw [List.mem_filter] at hc
      have := hc.2
      simp [hw, havail] at this
    · unfold pop_waiters_for_available_tokens
      dsimp only
      rw [List.filter_filter]
      rw [List.filter_eq_nil_iff]
      intro w2 _
      cases hq : decide (w2.token_id ∈ [t1] ∧
          tokenStatusOf s'.tokens w2.token_id = Option.some .available) with
      | false => simp [hq]
      | true => simp [hq]
  · intro st hstne hsts
    rw [director_decide_eq_step]
    have htx : request_items_tx s rid = [Item.mk rid comp t1] := by
      unfold request_items_tx
      rw [hitems]
      exact List.perm_singleton.mp (List.mergeSort_perm _ _)
    apply lifecycleStep_tokenErr s .REQUESTED _ _ _ _ d rid row _ hwf.2.1 hfind hst
    rw [htx]
    have hcnt : (sqlUpdateTokenIf s.tokens
        (if false then TokenStatus.reserved else TokenStatus.available)
        t1 .reserved).2 = 0 := by
      rw [sqlUpdate_rowcount _ _ _ _ hwf.1, if_neg]
      rw [hsts]
      simp only [Option.some.injEq]
      exact hstne
    simp only [updateItemTokens, hcnt]
    rfl

/-- C5: round trip.  Starting from any well-formed store in which every
token of a non-empty item list is `available`, the sequence
`create_request_multi` → `director_decide(true)` → `officer_issue` →
`officer_return` succeeds end to end, leaves the request in `RETURNED`
status, puts every item token back at `available`, and the audit log of
the request holds exactly the four actions
`REQUESTED`, `APPROVED`, `ISSUED`, `RETURNED` in chronological order
(`get_audit_logs` reports them most-recent-first). -/
theorem C5_round_trip (s : DBState) (now1 now2 now3 now4 : Nat) (tg : Int)
    (u : String) (items : List (String × String)) (p : String) (c : Option String)
    (d o1 o2 : Int) (hwf : WF s) (hne : items ≠ [])
    (hav : ∀ tid ∈ items.map (·.2), tokenStatusOf s.tokens tid = Option.some .available) :
    ∃ s1 s2 s3 s4 r2 r3 r4,
      create_request_multi s now1 tg u items p c = (s1, .ok s.nextRequestId) ∧
      director_decide s1 now2 s.nextRequestId d true = (s2, .ok r2) ∧
      officer_issue s2 now3 s.nextRequestId o1 = (s3, .ok r3) ∧
      officer_return s3 now4 s.nextRequestId o2 = (s4, .ok r4) ∧
      (get_request s4 s.nextRequestId).map (·.status) = Option.some .RETURNED ∧
      (∀ tid ∈ items.map (·.2), tokenStatusOf s4.tokens tid = Option.some .available) ∧
      (auditFor s4 s.nextRequestId).map (·.action) =
        ["REQUESTED", "APPROVED", "ISSUED", "RETURNED"] := by
  obtain ⟨ts2, hres, hcreate⟩ := create_success s now1 tg u items p c hwf.1 hav
  set s1 := createCommitted s now1 tg u items p c ts2 with hs1def
  have hfkLt : ∀ it ∈ s.request_items, it.request_id < s.nextRequestId := by
    intro it hit
    obtain ⟨r0, hr0, hid0⟩ := hwf.2.2.2.1 it hit
    rw [hid0]
    exact hwf.2.2.1 r0 hr0
  have hwf1 : WF s1 := WF_create s now1 tg u items p c s1 s.nextRequestId hwf hcreate
  have hfind1 : s1.requests.find? (fun r => decide (r.id = s.nextRequestId)) =
      Option.some (newRequestRow s.nextRequestId now1 tg u p c) := by
    rw [hs1def]
    unfold createCommitted
    dsimp only
    exact find?_requests_append_new s.requests
      (newRequestRow s.nextRequestId now1 tg u p c)
      (fun r hr => Nat.ne_of_lt (hwf.2.2.1 r hr))
  have hrefs1 : ∀ tid, refsId s1.request_items s.nextRequestId tid ↔
      tid ∈ (dedupItems items).map (·.2) := by
    intro tid
    rw [hs1def]
    rw [refs_createCommitted s now1 tg u items p c ts2 _ tid hfkLt]
    constructor
    · rintro (⟨it, hit, hid, _⟩ | ⟨_, htid⟩)
      · exact absurd hid (Nat.ne_of_lt (hfkLt it hit))
      · exact htid
    · intro htid
      exact Or.inr ⟨rfl, htid⟩
  have htok1 : ∀ tid, refsId s1.request_items s.nextRequestId tid →
      tokenStatusOf s1.tokens tid = Option.some .reserved := by
    intro tid href
    have htid := (hrefs1 tid).mp href
    have hmem := (reserveTokens_ok_mem (dedupItems items) s.tokens ts2 hwf.1
      (dedupItems_keys_nodup items) hres tid htid).2
    rw [hs1def]
    exact hmem
  -- decision
  obtain ⟨s2, hstep2⟩ := lifecycleStep_success s1 .REQUESTED (decideUpd d now2 true)
    .reserved .reserved "APPROVED" d s.nextRequestId
    (newRequestRow s.nextRequestId now1 tg u p c)
    (fun r0 => rfl) hwf1.2.1 hwf1.1 hwf1.2.2.2.2.1 hfind1 rfl htok1
  have hdecide : director_decide s1 now2 s.nextRequestId d true =
      (s2, .ok (decideUpd d now2 true (newRequestRow s.nextRequestId now1 tg u p c))) := by
    rw [director_decide_eq_step]
    exact hstep2
  obtain ⟨row2x, hfind2x, hst2x, hr2x, hreq2, hitems2, hwl2, hnext2, hlog2, hmem2,
    hframe2, hids2⟩ := lifecycleStep_ok_inv s1 .REQUESTED (decideUpd d now2 true)
      .reserved .reserved "APPROVED" d s.nextRequestId s2 _
      hstep2 (fun r0 => rfl) hwf1.2.1 hwf1.1 hwf1.2.2.2.2.1
  have hwf2 : WF s2 := WF_lifecycleStep s1 .REQUESTED (decideUpd d now2 true)
    .reserved .reserved "APPROVED" d s.nextRequestId s2 _ hstep2 (fun r0 => rfl) hwf1
  have hfind2 : s2.requests.find? (fun r => decide (r.id = s.nextRequestId)) =
      Option.some (decideUpd d now2 true (newRequestRow s.nextRequestId now1 tg u p c)) := by
    rw [hreq2]
    rw [find?_sqlUpdateRequestIf_self]
    · rw [hfind1]
      simp [newRequestRow]
    · exact fun r0 => rfl
  have htok2 : ∀ tid, refsId s2.request_items s.nextRequestId tid →
      tokenStatusOf s2.tokens tid = Option.some .reserved := by
    intro tid href
    rw [hitems2] at href
    exact (hmem2 tid href).2
  -- issue
  obtain ⟨s3, hstep3⟩ := lifecycleStep_success s2 .APPROVED (issueUpd o1 now3)
    .issued .reserved "ISSUED" o1 s.nextRequestId
    (decideUpd d now2 true (newRequestRow s.nextRequestId now1 tg u p c))
    (fun r0 => rfl) hwf2.2.1 hwf2.1 hwf2.2.2.2.2.1 hfind2 rfl htok2
  have hissue : officer_issue s2 now3 s.nextRequestId o1 =
      (s3, .ok (issueUpd o1 now3 (decideUpd d now2 true
        (newRequestRow s.nextRequestId now1 tg u p c)))) := by
    rw [officer_issue_eq_step]
    exact hstep3
  obtain ⟨row3x, hfind3x, hst3x, hr3x, hreq3, hitems3, hwl3, hnext3, hlog3, hmem3,
    hframe3, hids3⟩ := lifecycleStep_ok_inv s2 .APPROVED (issueUpd o1 now3)
      .issued .reserved "ISSUED" o1 s.nextRequestId s3 _
      hstep3 (fun r0 => rfl) hwf2.2.1 hwf2.1 hwf2.2.2.2.2.1
  have hwf3 : WF s3 := WF_lifecycleStep s2 .APPROVED (issueUpd o1 now3)
    .issued .reserved "ISSUED" o1 s.nextRequestId s3 _ hstep3 (fun r0 => rfl) hwf2
  have hfind3 : s3.requests.find? (fun r => decide (r.id = s.nextRequestId)) =
      Option.some (issueUpd o1 now3 (decideUpd d now2 true
        (newRequestRow s.nextRequestId now1 tg u p c))) := by
    rw [hreq3]
    rw [find?_sqlUpdateRequestIf_self]
    · rw [hfind2]
      simp [decideUpd]
    · exact fun r0 => rfl
  have htok3 : ∀ tid, refsId s3.request_items s.nextRequestId tid →
      tokenStatusOf s3.tokens tid = Option.some .issued := by
    intro tid href
    rw [hitems3] at href
    exact (hmem3 tid href).2
  -- return
  obtain ⟨s4, hstep4⟩ := lifecycleStep_success s3 .ISSUED (returnUpd o2 now4)
    .available .issued "RETURNED" o2 s.nextRequestId
    (issueUpd o1 now3 (decideUpd d now2 true
      (newRequestRow s.nextRequestId now1 tg u p c)))
    (fun r0 => rfl) hwf3.2.1 hwf3.1 hwf3.2.2.2.2.1 hfind3 rfl htok3
  have hreturn : officer_return s3 now4 s.nextRequestId o2 =
      (s4, .ok (returnUpd o2 now4 (issueUpd o1 now3 (decideUpd d now2 true
        (newRequestRow s.nextRequestId now1 tg u p c))))) := by
    rw [officer_return_eq_step]
    exact hstep4
  obtain ⟨row4x, hfind4x, hst4x, hr4x, hreq4, hitems4, hwl4, hnext4, hlog4, hmem4,
    hframe4, hids4⟩ := lifecycleStep_ok_inv s3 .ISSUED (returnUpd o2 now4)
      .available .issued "RETURNED" o2 s.nextRequestId s4 _
      hstep4 (fun r0 => rfl) hwf3.2.1 hwf3.1 hwf3.2.2.2.2.1
  have hfind4 : s4.requests.find? (fun r => decide (r.id = s.nextRequestId)) =
      Option.some (returnUpd o2 now4 (issueUpd o1 now3 (decideUpd d now2 true
        (newRequestRow s.nextRequestId now1 tg u p c)))) := by
    rw [hreq4]
    rw [find?_sqlUpdateRequestIf_self]
    · rw [hfind3]
      simp [issueUpd]
    · exact fun r0 => rfl
  have hlog1 : s1.audit_log = s.audit_log ++
      [{ request_id := Option.some s.nextRequestId, actor_tg_id := tg,
         action := "REQUESTED" }] := by
    rw [hs1def]
    rfl
  refine ⟨s1, s2, s3, s4, _, _, _, hcreate, hdecide, hissue, hreturn, ?_, ?_, ?_⟩
  · unfold get_request
    rw [hfind4]
    rfl
  · intro tid htid
    have htid2 : tid ∈ (dedupItems items).map (·.2) :=
      (mem_dedupItems_keys items tid).mpr htid
    have href3 : refsId s3.request_items s.nextRequestId tid := by
      rw [hitems3, hitems2]
      exact (hrefs1 tid).mpr htid2
    exact (hmem4 tid href3).2
  · unfold auditFor
    rw [auditFor_append_hit s3 s4.audit_log _ _ hlog4 rfl,
      auditFor_append_hit s2 s3.audit_log _ _ hlog3 rfl,
      auditFor_append_hit s1 s2.audit_log _ _ hlog2 rfl,
      auditFor_append_hit s s1.audit_log _ _ hlog1 rfl,
      auditFor_WF_fresh s hwf]
    rfl

/-! ### Witnesses -/

/-- Witness for C1 at a concrete store and item list. -/
theorem C1_witness :
    WF wstateAvail ∧
    ((∀ s' e, create_request_multi wstateAvail 5 7 "u" [("A", "T1")] "p" Option.none =
      (s', .error e) → s' = wstateAvail) ∧
    (∀ s' rid, create_request_multi wstateAvail 5 7 "u" [("A", "T1")] "p" Option.none =
      (s', .ok rid) →
      rid = wstateAvail.nextRequestId ∧
      (∀ tid ∈ [("A", "T1")].map (·.2),
        tokenStatusOf wstateAvail.tokens tid = Option.some .available ∧
        tokenStatusOf s'.tokens tid = Option.some .reserved) ∧
      (∀ tid, tid ∉ [("A", "T1")].map (·.2) →
        tokenStatusOf s'.tokens tid = tokenStatusOf wstateAvail.tokens tid) ∧
      s'.requests = wstateAvail.requests ++
        [newRequestRow wstateAvail.nextRequestId 5 7 "u" "p" Option.none] ∧
      s'.request_items = wstateAvail.request_items ++
        (dedupItems [("A", "T1")]).map (fun p => Item.mk wstateAvail.nextRequestId p.1 p.2) ∧
      s'.audit_log = wstateAvail.audit_log ++
        [{ request_id := Option.some wstateAvail.nextRequestId, actor_tg_id := 7,
           action := "REQUESTED" }] ∧
      s'.waitlist = wstateAvail.waitlist ∧
      s'.nextRequestId = wstateAvail.nextRequestId + 1)) :=
  ⟨by decide,
   C1_create_all_or_nothing wstateAvail 5 7 "u" [("A", "T1")] "p" Option.none (by decide)⟩

/-- Witness for C2: the create operation applied on a concrete store,
with the well-formedness and invariant hypotheses discharged there. -/
theorem C2_witness :
    WF wstateAvail ∧ Inv wstateAvail ∧
    (∀ s' rid, create_request_multi wstateAvail 5 7 "u" [("A", "T1")] "p" Option.none =
      (s', .ok rid) → Inv s') := by
  have hInv : Inv wstateAvail := by
    intro tid
    constructor
    · intro r1 hr1
      exact absurd hr1 (List.not_mem_nil r1)
    · intro r hr
      exact absurd hr (List.not_mem_nil r)
  exact ⟨by decide, hInv, fun s' rid h =>
    C2_invariant_preserved.1 wstateAvail 5 7 "u" [("A", "T1")] "p" Option.none s' rid
      (by decide) hInv h⟩

/-- Witness for C3 (amended) at a concrete token catalog. -/
theorem C3_witness :
    (wstateAvail.tokens.map (·.token_id)).Nodup ∧
    (((sqlUpdateTokenIf wstateAvail.tokens .reserved "T1" .available).2 = 1 ↔
      tokenStatusOf wstateAvail.tokens "T1" = Option.some .available) ∧
    (sqlUpdateTokenIf wstateAvail.tokens .reserved "T1" .available).2 ≤ 1 ∧
    tokenStatusOf (sqlUpdateTokenIf wstateAvail.tokens .reserved "T1" .available).1 "T1" =
      (tokenStatusOf wstateAvail.tokens "T1").map
        (fun st0 => if st0 = TokenStatus.available then TokenStatus.reserved else st0) ∧
    (∀ tid2, tid2 ≠ "T1" →
      tokenStatusOf (sqlUpdateTokenIf wstateAvail.tokens .reserved "T1" .available).1 tid2 =
        tokenStatusOf wstateAvail.tokens tid2) ∧
    ((set_token_status wstateAvail.tokens "T1" .issued).2 = true ↔
      ∃ t ∈ wstateAvail.tokens, t.token_id = "T1") ∧
    tokenStatusOf (set_token_status wstateAvail.tokens "T1" .issued).1 "T1" =
      (tokenStatusOf wstateAvail.tokens "T1").map (fun _ => TokenStatus.issued) ∧
    (∀ tid2, tid2 ≠ "T1" →
      tokenStatusOf (set_token_status wstateAvail.tokens "T1" .issued).1 tid2 =
        tokenStatusOf wstateAvail.tokens tid2)) :=
  ⟨by decide,
   C3_status_update_primitives wstateAvail.tokens "T1" .issued .reserved .available (by decide)⟩

/-- Witness for C4 at a concrete pending request. -/
theorem C4_witness :
    WF wstateReq ∧
    ((∀ s1 r1, director_decide wstateReq 10 1 99 true = (s1, .ok r1) →
      director_decide s1 11 1 98 false = (s1, .err .invalidStatus)) ∧
    (∀ ap s' r', director_decide wstateReq 10 1 99 ap = (s', .ok r') →
      ∃ row, get_request wstateReq 1 = Option.some row ∧ row.status = .REQUESTED)) :=
  ⟨by decide, C4_second_decide_fails wstateReq 10 11 1 99 98 false (by decide)⟩

/-- Witness for C5: the full round trip on a concrete store. -/
theorem C5_witness :
    WF wstateAvail ∧ ([("A", "T1")] : List (String × String)) ≠ [] ∧
    (∀ tid ∈ [("A", "T1")].map (·.2),
      tokenStatusOf wstateAvail.tokens tid = Option.some .available) ∧
    (∃ s1 s2 s3 s4 r2 r3 r4,
      create_request_multi wstateAvail 5 7 "u" [("A", "T1")] "p" Option.none =
        (s1, .ok wstateAvail.nextRequestId) ∧
      director_decide s1 6 wstateAvail.nextRequestId 99 true = (s2, .ok r2) ∧
      officer_issue s2 7 wstateAvail.nextRequestId 98 = (s3, .ok r3) ∧
      officer_return s3 8 wstateAvail.nextRequestId 97 = (s4, .ok r4) ∧
      (get_request s4 wstateAvail.nextRequestId).map (·.status) =
        Option.some .RETURNED ∧
      (∀ tid ∈ [("A", "T1")].map (·.2),
        tokenStatusOf s4.tokens tid = Option.some .available) ∧
      (auditFor s4 wstateAvail.nextRequestId).map (·.action) =
        ["REQUESTED", "APPROVED", "ISSUED", "RETURNED"]) :=
  ⟨by decide, by decide, by decide,
   C5_round_trip wstateAvail 5 6 7 8 7 "u" [("A", "T1")] "p" Option.none 99 98 97
     (by decide) (by decide) (by decide)⟩

/-- Witness for C6 at a concrete pending single-token request with one
waitlist entry. -/
theorem C6_witness :
    WF wstateReq ∧
    get_request wstateReq 1 = Option.some wreq ∧
    wreq.status = .REQUESTED ∧
    wstateReq.request_items.filter (fun it => decide (it.request_id = 1)) =
      [Item.mk 1 "A" "T1"] ∧
    (WaitEntry.mk 21 "T1" "A").token_id = "T1" ∧
    wstateReq.waitlist.count (WaitEntry.mk 21 "T1" "A") = 1 ∧
    ((tokenStatusOf wstateReq.tokens "T1" = Option.some .reserved →
      ∃ s' r', director_decide wstateReq 10 1 99 false = (s', .ok r') ∧
        r'.status = .REJECTED ∧
        tokenStatusOf s'.tokens "T1" = Option.some .available ∧
        s'.waitlist = wstateReq.waitlist ∧
        (pop_waiters_for_available_tokens s' ["T1"]).2.count
          (WaitEntry.mk 21 "T1" "A") = 1 ∧
        (WaitEntry.mk 21 "T1" "A") ∉
          (pop_waiters_for_available_tokens s' ["T1"]).1.waitlist ∧
        (pop_waiters_for_available_tokens
          (pop_waiters_for_available_tokens s' ["T1"]).1 ["T1"]).2 = []) ∧
    (∀ st, st ≠ TokenStatus.reserved →
      tokenStatusOf wstateReq.tokens "T1" = Option.some st →
      director_decide wstateReq 10 1 99 false =
        (wstateReq, .err (.tokenStatusMismatch "T1")))) :=
  ⟨by decide, by decide, by decide, by decide, by decide, by decide,
   C6_rejection_path wstateReq 10 1 99 wreq "A" "T1" (WaitEntry.mk 21 "T1" "A")
     (by decide) (by decide) (by decide) (by decide) (by decide) (by decide)⟩

/-- Witness for C7 at a concrete store holding one old `RETURNED` request. -/
theorem C7_witness :
    WF wstateRet ∧
    ((cleanup_old_data wstateRet 100 0).2 =
      (wstateRet.requests.filter (isOldTerminal 100 0)).length ∧
    (cleanup_old_data wstateRet 100 0).1.requests =
      wstateRet.requests.filter (fun r => !isOldTerminal 100 0 r) ∧
    (cleanup_old_data wstateRet 100 0).1.tokens = wstateRet.tokens ∧
    (cleanup_old_data wstateRet 100 0).1.waitlist = wstateRet.waitlist ∧
    (cleanup_old_data wstateRet 100 0).1.nextRequestId = wstateRet.nextRequestId ∧
    (∀ r ∈ wstateRet.requests, NonTerminal r.status →
      r ∈ (cleanup_old_data wstateRet 100 0).1.requests) ∧
    (∀ it, it ∈ (cleanup_old_data wstateRet 100 0).1.request_items ↔
      (it ∈ wstateRet.request_items ∧
        ¬∃ r ∈ wstateRet.requests, isOldTerminal 100 0 r = true ∧
          it.request_id = r.id)) ∧
    (∀ a, a ∈ (cleanup_old_data wstateRet 100 0).1.audit_log ↔
      (a ∈ wstateRet.audit_log ∧
        ¬∃ r ∈ wstateRet.requests, isOldTerminal 100 0 r = true ∧
          a.request_id = Option.some r.id))) :=
  ⟨by decide, C7_purge_terminal_only wstateRet 100 0 (by decide)⟩

/-- Witness for C8 at a concrete store with one `ISSUED` request. -/
theorem C8_witness :
    get_request wstateIss 1 = Option.some { wreq with status := .ISSUED } ∧
    ({ wreq with status := ReqStatus.ISSUED }).status = .ISSUED ∧
    ((delete_request_by_admin wstateIss 1 50).2 = true ∧
    (∀ tid, refsId wstateIss.request_items 1 tid →
      tokenStatusOf (delete_request_by_admin wstateIss 1 50).1.tokens tid =
        (tokenStatusOf wstateIss.tokens tid).map (fun _ => TokenStatus.available)) ∧
    get_request (delete_request_by_admin wstateIss 1 50).1 1 = Option.none ∧
    (delete_request_by_admin wstateIss 1 50).1.request_items.filter
      (fun it => decide (it.request_id = 1)) = [] ∧
    auditFor (delete_request_by_admin wstateIss 1 50).1 1 = []) :=
  ⟨by decide, by decide,
   C8_admin_delete wstateIss 1 50 { wreq with status := .ISSUED } (by decide) (by decide)⟩

/-- Witness for C9: a duplicated token id with two different companies in
one concrete create call. -/
theorem C9_witness :
    WF wstateAvail ∧
    create_request_multi wstateAvail 5 7 "u" [("A", "T1"), ("B", "T1")] "p" Option.none =
      ((create_request_multi wstateAvail 5 7 "u" [("A", "T1"), ("B", "T1")] "p"
        Option.none).1, .ok 1) ∧
    (∀ tid ∈ [("A", "T1"), ("B", "T1")].map (·.2),
      ((create_request_multi wstateAvail 5 7 "u" [("A", "T1"), ("B", "T1")] "p"
          Option.none).1.request_items.filter
        (fun it => decide (it.request_id = 1))).countP
        (fun it => decide (it.token_id = tid)) = 1 ∧
      (((create_request_multi wstateAvail 5 7 "u" [("A", "T1"), ("B", "T1")] "p"
          Option.none).1.request_items.filter
        (fun it => decide (it.request_id = 1))).find?
        (fun it => decide (it.token_id = tid))).map (·.company) =
        lastCompany [("A", "T1"), ("B", "T1")] tid) :=
  ⟨by decide, rfl,
   C9_dedup_last_company_wins wstateAvail 5 7 "u" [("A", "T1"), ("B", "T1")] "p"
     Option.none
     (create_request_multi wstateAvail 5 7 "u" [("A", "T1"), ("B", "T1")] "p"
       Option.none).1 1
     (by decide) rfl⟩

end BotTG
